import Mathlib

/-!
Verification of the node-to-markup renderer of the figma-email-html plugin.

The development shallowly embeds the plugin source (the current revision in
`src/code.ts`, namespace `CT`, and the download-mode revision in
`src/unnamed/part_000`, namespace `DL`).  Host numbers are embedded as exact
rationals `Rq` (numerator, positive denominator, without normalisation, so that
every operation is kernel-computable); host strings are embedded as `List Char`.
External collaborators (the scene graph's parent chain, the rasterised image
exporter, the selection state) are passed in as explicit oracle parameters.
-/

/-- Exact rational numbers with a positive denominator, used to embed the
host's (binary floating point) numbers.  All inputs exercised here are exactly
representable, and the operations below are exact, so the embedding agrees
with the host arithmetic on every value appearing in the development. -/
structure Rq where
  n : Int
  d : Int
  pos : 0 < d
  deriving DecidableEq

def Rq.ofInt (i : Int) : Rq := ⟨i, 1, by decide⟩

def Rq.add (a b : Rq) : Rq := ⟨a.n * b.d + b.n * a.d, a.d * b.d, mul_pos a.pos b.pos⟩

def Rq.sub (a b : Rq) : Rq := ⟨a.n * b.d - b.n * a.d, a.d * b.d, mul_pos a.pos b.pos⟩

def Rq.mul (a b : Rq) : Rq := ⟨a.n * b.n, a.d * b.d, mul_pos a.pos b.pos⟩

/-- Division of the embedded numbers.  Host division by zero yields an IEEE
infinity, which is not representable here; no claim exercises that case, and
the zero-divisor fallback below is arbitrary. -/
def Rq.div (a b : Rq) : Rq :=
  if h : 0 < b.n then ⟨a.n * b.d, a.d * b.n, mul_pos a.pos h⟩
  else if h2 : b.n < 0 then ⟨-(a.n * b.d), a.d * (-b.n), mul_pos a.pos (by omega)⟩
  else ⟨0, 1, by decide⟩

/-- Strict value comparison (cross multiplication; denominators are positive). -/
def Rq.blt (a b : Rq) : Bool := a.n * b.d < b.n * a.d

/-- Non-strict value comparison. -/
def Rq.ble (a b : Rq) : Bool := a.n * b.d ≤ b.n * a.d

/-- Value equality (the representation is not normalised). -/
def Rq.beq (a b : Rq) : Bool := a.n * b.d = b.n * a.d

def Rq.minQ (a b : Rq) : Rq := if Rq.blt b a then b else a

def Rq.maxQ (a b : Rq) : Rq := if Rq.blt a b then b else a

/-- The host's `Math.round`: round half towards positive infinity,
`⌊q + 1/2⌋ = ⌊(2n + d) / (2d)⌋`. -/
def jsRound (q : Rq) : Int := Int.fdiv (2 * q.n + q.d) (2 * q.d)

/-- Whether the value of `q` is an integer (host integers print without a
fractional part). -/
def Rq.isIntVal (q : Rq) : Bool := q.n % q.d = 0

def Rq.toIntVal (q : Rq) : Int := q.n / q.d

/- ### Characters and strings -/

/-- The apostrophe character, kept out of string literals. -/
def qc : Char := Char.ofNat 39

def digitChar10 (d : Nat) : Char := Char.ofNat (48 + d)

def hexDigitLower (d : Nat) : Char :=
  if d < 10 then Char.ofNat (48 + d) else Char.ofNat (87 + d)

def hexDigitUpper (d : Nat) : Char :=
  if d < 10 then Char.ofNat (48 + d) else Char.ofNat (55 + d)

def natDigitsAux (base : Nat) (digit : Nat → Char) : Nat → Nat → List Char
  | 0, _ => []
  | fuel + 1, x => if x = 0 then [] else natDigitsAux base digit fuel (x / base) ++ [digit (x % base)]

/-- Decimal digits of a natural number, as the host prints integers. -/
def natToStr (x : Nat) : List Char :=
  if x = 0 then ['0'] else natDigitsAux 10 digitChar10 x x

/-- The host's printing of an integral number. -/
def intToStr (i : Int) : List Char :=
  if i < 0 then '-' :: natToStr i.natAbs else natToStr i.toNat

/-- Lower-case hexadecimal digits, as the host's `toString(16)`. -/
def natToHex (x : Nat) : List Char :=
  if x = 0 then ['0'] else natDigitsAux 16 hexDigitLower x x

def intToHex (i : Int) : List Char :=
  if i < 0 then '-' :: natToHex i.natAbs else natToHex i.toNat

/-- Printing of an embedded number.  Integral values print exactly as the host
does; the host's shortest-round-trip printing of non-integral doubles is not
modelled (no claim exercises it) and such values print as an explicit
fraction. -/
def rqToStr (q : Rq) : List Char :=
  if q.isIntVal then intToStr q.toIntVal
  else intToStr q.n ++ '/' :: intToStr q.d

/-- The host's `toFixed(2)` on the exact value (round half up; the tie
behaviour of the underlying binary doubles is not exercised by any claim). -/
def toFixed2 (q : Rq) : List Char :=
  let m := jsRound (q.mul (Rq.ofInt 100))
  let a := m.natAbs
  let core := natToStr (a / 100) ++ '.' ::
    (if a % 100 < 10 then '0' :: natToStr (a % 100) else natToStr (a % 100))
  if m < 0 then '-' :: core else core

/-- Whitespace as trimmed by the host's `String.prototype.trim`: the
WhiteSpace productions (tab, vertical tab, form feed, space, no-break space,
the Unicode space separators, and the byte-order mark) and the line
terminators (line feed, carriage return, line separator, paragraph
separator). -/
def isWSChar (c : Char) : Bool :=
  c = ' ' || c = '\t' || c = '\n' || c = '\r' || c = Char.ofNat 11 || c = Char.ofNat 12 ||
  c = Char.ofNat 0xA0 || c = Char.ofNat 0x1680 ||
  (0x2000 ≤ c.toNat && c.toNat ≤ 0x200A) ||
  c = Char.ofNat 0x2028 || c = Char.ofNat 0x2029 || c = Char.ofNat 0x202F ||
  c = Char.ofNat 0x205F || c = Char.ofNat 0x3000 || c = Char.ofNat 0xFEFF

def trimLeft (s : List Char) : List Char := s.dropWhile isWSChar

def trimRight (s : List Char) : List Char := (s.reverse.dropWhile isWSChar).reverse

/-- The host's `trim`. -/
def trim (s : List Char) : List Char := trimRight (trimLeft s)

/-- The host's `String.prototype.split` on a single-character separator:
the result is never empty, and splitting the empty string gives `[[]]`. -/
def splitOnC (sep : Char) : List Char → List (List Char)
  | [] => [[]]
  | c :: cs =>
    match splitOnC sep cs with
    | [] => [[c]]
    | p :: ps => if c = sep then [] :: p :: ps else (c :: p) :: ps

/-- The host's `Array.prototype.join` on a one-character separator. -/
def joinC (sep : Char) : List (List Char) → List Char
  | [] => []
  | [p] => p
  | p :: q :: rest => p ++ sep :: joinC sep (q :: rest)

/-- The host's `join(", ")`. -/
def joinCS : List (List Char) → List Char
  | [] => []
  | [p] => p
  | p :: q :: rest => p ++ ',' :: ' ' :: joinCS (q :: rest)

/-- The host's `replace(/c/g, rep)` for a single-character pattern. -/
def replaceAllC (c : Char) (rep : List Char) (s : List Char) : List Char :=
  s.flatMap (fun a => if a = c then rep else [a])

/-- First-occurrence deduplication, as `[...new Set(l)]`. -/
def dedupSetAux (seen : List (List Char)) : List (List Char) → List (List Char)
  | [] => []
  | x :: xs => if x ∈ seen then dedupSetAux seen xs else x :: dedupSetAux (x :: seen) xs

def dedupSet (l : List (List Char)) : List (List Char) := dedupSetAux [] l

/-- Occurrence test, as the host's `String.prototype.includes`. -/
def isSubstr (pat : List Char) : List Char → Bool
  | [] => pat.isEmpty
  | c :: t => pat.isPrefixOf (c :: t) || isSubstr pat t

def toLowerStr (s : List Char) : List Char := s.map Char.toLower

/- ### Colors -/

structure RgbColor where
  r : Rq
  g : Rq
  b : Rq
  deriving DecidableEq

structure RgbaColor where
  r : Rq
  g : Rq
  b : Rq
  a : Rq
  deriving DecidableEq

/-- One channel of the hex encoding:
`("0" + Math.round(c * 255).toString(16)).slice(-2)`. -/
def toHexChannel (c : Rq) : List Char :=
  let s := '0' :: intToHex (jsRound (c.mul (Rq.ofInt 255)))
  s.drop (s.length - 2)

/-- The source's `figmaColorToHex` (identical in every revision). -/
def figmaColorToHex (color : RgbColor) : List Char :=
  '#' :: (toHexChannel color.r ++ toHexChannel color.g ++ toHexChannel color.b)

/-- The source's `blendColors` (code.ts lines 107-112; identical in
part_000): per-channel `fg*alpha + bg*(1-alpha)`. -/
def blendColors (fg : RgbaColor) (bg : RgbColor) : RgbColor :=
  let one := Rq.ofInt 1
  ⟨(fg.r.mul fg.a).add (bg.r.mul (one.sub fg.a)),
   (fg.g.mul fg.a).add (bg.g.mul (one.sub fg.a)),
   (fg.b.mul fg.a).add (bg.b.mul (one.sub fg.a))⟩

/- ### Paints -/

structure GradientStop where
  color : RgbaColor
  deriving DecidableEq

/-- A paint, as read by the renderer: a solid colour with optional opacity and
visibility, a gradient with its stops, or an image reference.  Fields the
source never reads are omitted. -/
inductive Paint where
  | solid (color : RgbColor) (opacity : Option Rq) (visible : Option Bool)
  | gradient (gradientStops : List GradientStop) (opacity : Option Rq) (visible : Option Bool)
  | image (visible : Option Bool)
  deriving DecidableEq

/-- The host's `paint.visible !== false` (an absent flag counts as visible). -/
def Paint.visibleOk : Paint → Bool
  | .solid _ _ v => !(v = some false)
  | .gradient _ _ v => !(v = some false)
  | .image v => !(v = some false)

def Paint.isSolidT : Paint → Bool
  | .solid _ _ _ => true
  | _ => false

def Paint.isImageT : Paint → Bool
  | .image _ => true
  | _ => false

structure EffColor where
  hex : Option (List Char)
  rgb : RgbColor
  deriving DecidableEq

namespace CT

/-- The current revision's `getEffectiveBackgroundColorForFills` (code.ts
lines 114-136): the first visible solid fill wins; opacity at least `0.99` is
treated as opaque; otherwise the fill is alpha-composited over the inherited
background.  The `Array.isArray` guard is vacuous here because the embedded
fill list is always an array. -/
def getEffectiveBackgroundColorForFills (fills : List Paint) (parentBgColor : RgbColor) : EffColor :=
  match fills.find? (fun f => f.isSolidT && f.visibleOk) with
  | some (.solid color opacity _) =>
    let fillOpacity := opacity.getD (Rq.ofInt 1)
    let totalOpacity := fillOpacity
    if Rq.ble ⟨99, 100, by decide⟩ totalOpacity then
      let solidRgb : RgbColor := ⟨color.r, color.g, color.b⟩
      ⟨some (figmaColorToHex solidRgb), solidRgb⟩
    else
      let foregroundColor : RgbaColor := ⟨color.r, color.g, color.b, totalOpacity⟩
      let finalRgb := blendColors foregroundColor parentBgColor
      ⟨some (figmaColorToHex finalRgb), finalRgb⟩
  | _ => ⟨none, parentBgColor⟩

/-- The current revision's `sanitizeStyles` rule step: parse `key:value`,
skip empty keys and values, store under the trimmed property name with
last-wins map semantics (first-insertion order preserved), deduplicating
`font-family` lists. -/
def mapSet (m : List (List Char × List Char)) (k v : List Char) : List (List Char × List Char) :=
  if m.any (fun e => e.1 = k) then m.map (fun e => if e.1 = k then (k, v) else e)
  else m ++ [(k, v)]

def sanitizeStep (m : List (List Char × List Char)) (rule : List Char) : List (List Char × List Char) :=
  let parts := splitOnC ':' rule
  let key := parts.headD []
  let valueParts := parts.tail
  let value := trim (joinC ':' valueParts)
  if key = [] ∨ value = [] then m
  else
    let prop := trim key
    if prop = "font-family".data then
      let fonts := (splitOnC ',' value).map (fun f => (trim f).filter (fun c => !(c = qc)))
      mapSet m prop (joinCS (dedupSet fonts))
    else mapSet m prop value

/-- The current revision's `sanitizeStyles` (code.ts lines 42-63). -/
def sanitizeStyles (styleStr : List Char) : List Char :=
  if styleStr = [] then []
  else
    let rules := (splitOnC ';' styleStr).filter (fun r => !(trim r).isEmpty)
    let entries := rules.foldl sanitizeStep []
    joinC ';' (entries.map (fun e => e.1 ++ ':' :: e.2))

/-- The zero-length test `^0(px|pt|em|rem|%|vw|vh)?$` of the current
revision. -/
def isZeroLengthCT (v : List Char) : Bool :=
  ["0".data, "0px".data, "0pt".data, "0em".data, "0rem".data,
   "0%".data, "0vw".data, "0vh".data].contains v

/-- The rule filter of the current revision's `cleanZeroValueStyles`:
blank rules are dropped; a rule whose property's first hyphen component is
`margin`, `padding` or `border` (the listed `border-radius` entry is subsumed)
and whose value is a zero length is dropped; everything else is kept
verbatim. -/
def keepRuleCT (rule : List Char) : Bool :=
  if (trim rule).isEmpty then false
  else
    let parts := splitOnC ':' rule
    if parts.length < 2 then true
    else
      let value := trim (parts.getD 1 [])
      let isZeroLength := isZeroLengthCT value
      let key := trim (parts.headD [])
      if (["margin".data, "padding".data, "border".data, "border-radius".data].contains
            ((splitOnC '-' key).headD [])) && isZeroLength then false
      else true

/-- The current revision's `cleanZeroValueStyles` (code.ts lines 65-83). -/
def cleanZeroValueStyles (styleStr : List Char) : List Char :=
  if styleStr = [] then []
  else joinC ';' ((splitOnC ';' styleStr).filter keepRuleCT)

/-- The style accumulation step as composed at every call site of the current
revision: `sanitizeStyles(cleanZeroValueStyles(s))`. -/
def accumulateStyles (s : List Char) : List Char :=
  sanitizeStyles (cleanZeroValueStyles s)

end CT

/- ### The design-tree node model -/

/-- Node kinds the renderer inspects; `OTHER` stands for every unsupported
kind (the switch's `default` branch). -/
inductive NType where
  | FRAME | GROUP | COMPONENT | INSTANCE | RECTANGLE | ELLIPSE | VECTOR | LINE | TEXT | OTHER
  deriving DecidableEq

inductive LMode where
  | NONE | HORIZONTAL | VERTICAL
  deriving DecidableEq

/-- Auto-layout axis alignment values read by the renderer. -/
inductive AAlign where
  | MIN | CENTER | MAX | SPACE_BETWEEN | BASELINE
  deriving DecidableEq

inductive TDec where
  | NONE | UNDERLINE | STRIKETHROUGH
  deriving DecidableEq

/-- A line-height value: `AUTO`, or a `PIXELS`/`PERCENT` value. -/
inductive LineH where
  | AUTO
  | PIXELS (value : Rq)
  | PERCENT (value : Rq)
  deriving DecidableEq

structure FontName where
  family : List Char
  style : List Char
  deriving DecidableEq

/-- One style-homogeneous run, as returned by the host's
`getStyledTextSegments` oracle.  `fontName = none` embeds `figma.mixed`. -/
structure Seg where
  fontName : Option FontName
  fontSize : Rq
  fills : List Paint
  lineHeight : LineH
  textDecoration : TDec
  characters : List Char
  deriving DecidableEq

/-- The `fills` property of a node: absent (the node kind has no fills),
`figma.mixed`, or an array of paints. -/
inductive FillsVal where
  | absent
  | mixed
  | arr (fills : List Paint)
  deriving DecidableEq

/-- The non-recursive data of a node.  `Option` fields embed properties that
may be absent on a node kind (the host's `"p" in node` / `typeof` probes). -/
structure NData where
  type : NType
  id : List Char
  name : List Char
  visible : Bool
  x : Rq
  y : Rq
  width : Rq
  height : Rq
  fills : FillsVal
  strokes : Option (List Paint)
  strokeWeight : Option Rq
  cornerRadius : Option Rq
  layoutMode : Option LMode
  paddingTop : Option Rq
  paddingBottom : Option Rq
  paddingLeft : Option Rq
  paddingRight : Option Rq
  itemSpacing : Option Rq
  primaryAxisAlignItems : Option AAlign
  counterAxisAlignItems : Option AAlign
  characters : List Char
  textAlignHorizontal : List Char
  fontName : Option FontName
  fontSize : Option Rq
  segments : List Seg

/-- A design-tree node: its data and its ordered children. -/
inductive Node where
  | mk (data : NData) (children : List Node)

def Node.data : Node → NData
  | .mk d _ => d

def Node.children : Node → List Node
  | .mk _ cs => cs

def Node.type (n : Node) : NType := n.data.type

def Node.id (n : Node) : List Char := n.data.id

def Node.name (n : Node) : List Char := n.data.name

def Node.visible (n : Node) : Bool := n.data.visible

def Node.x (n : Node) : Rq := n.data.x

def Node.y (n : Node) : Rq := n.data.y

def Node.width (n : Node) : Rq := n.data.width

def Node.height (n : Node) : Rq := n.data.height

def Node.fills (n : Node) : FillsVal := n.data.fills

def Node.strokes (n : Node) : Option (List Paint) := n.data.strokes

def Node.strokeWeight (n : Node) : Option Rq := n.data.strokeWeight

def Node.cornerRadius (n : Node) : Option Rq := n.data.cornerRadius

def Node.layoutMode (n : Node) : Option LMode := n.data.layoutMode

def Node.paddingTop (n : Node) : Option Rq := n.data.paddingTop

def Node.paddingBottom (n : Node) : Option Rq := n.data.paddingBottom

def Node.paddingLeft (n : Node) : Option Rq := n.data.paddingLeft

def Node.paddingRight (n : Node) : Option Rq := n.data.paddingRight

def Node.itemSpacing (n : Node) : Option Rq := n.data.itemSpacing

def Node.primaryAxisAlignItems (n : Node) : Option AAlign := n.data.primaryAxisAlignItems

def Node.counterAxisAlignItems (n : Node) : Option AAlign := n.data.counterAxisAlignItems

def Node.characters (n : Node) : List Char := n.data.characters

def Node.textAlignHorizontal (n : Node) : List Char := n.data.textAlignHorizontal

def Node.fontName (n : Node) : Option FontName := n.data.fontName

def Node.fontSize (n : Node) : Option Rq := n.data.fontSize

def Node.segments (n : Node) : List Seg := n.data.segments

/-- The host's stable ascending `Array.prototype.sort` with the comparator
`(a, b) => a.y - b.y`, as a stable insertion sort (stable sorts of a
consistent comparator agree on the result). -/
def insByY (a : Node) : List Node → List Node
  | [] => [a]
  | b :: bs => if Rq.ble b.y a.y then b :: insByY a bs else a :: b :: bs

def sortByY (l : List Node) : List Node := l.foldl (fun acc x => insByY x acc) []

/- ### Shared classifier helpers (bullet map, bullet and CTA detection) -/

/-- The source's `bulletCharacterMap` as a lookup function. -/
def bulletCharacterMap (s : List Char) : Option (List Char) :=
  if s = "•".data then some "&#8226;".data
  else if s = "*".data then some "&#8226;".data
  else if s = "-".data then some "&#8211;".data
  else none

/-- Membership in the keys of `bulletCharacterMap` (`bulletChar in map`). -/
def isBulletKey (s : List Char) : Bool :=
  ["•".data, "*".data, "-".data].contains s

/-- The current revision's `isPotentialCta` (code.ts lines 622-629): a
frame/group with exactly two children, one text and one rectangle/ellipse. -/
def isPotentialCta (node : Node) : Bool :=
  if node.type ≠ NType.FRAME ∧ node.type ≠ NType.GROUP then false
  else if node.children.length ≠ 2 then false
  else
    let hasText := node.children.any (fun child => child.type = NType.TEXT)
    let hasShape := node.children.any
      (fun child => child.type = NType.RECTANGLE ∨ child.type = NType.ELLIPSE)
    hasText && hasShape

/-- The current revision's `isBulletPoint` (code.ts lines 631-644). -/
def isBulletPoint (node : Node) : Bool :=
  if node.type ≠ NType.FRAME ∨ !node.visible then false
  else if node.layoutMode ≠ some LMode.HORIZONTAL ∨ node.children.length ≠ 2 then false
  else
    match node.children with
    | firstChild :: secondChild :: _ =>
      if firstChild.type ≠ NType.TEXT ∨ secondChild.type ≠ NType.TEXT then false
      else
        let bulletChar := trim firstChild.characters
        bulletChar.length = 1 && isBulletKey bulletChar
    | _ => false

namespace CT

/-- Render context of the current revision: the confirmed CTA id set handed
over by the UI confirmation round-trip, and the external parent-chain
background lookup (`findParentBackgroundColor` walks the host's parent
references, which the embedded tree does not own). -/
structure Ctx where
  confirmedCtaIds : List (List Char)
  parentBg : Node → RgbColor

/-- The host's `[a, b, c].filter(Boolean).join(";")` over possibly-null,
possibly-empty style strings. -/
def joinTruthy (l : List (Option (List Char))) : List Char :=
  joinC ';' ((l.filterMap id).filter (fun s => !s.isEmpty))

/-- The current revision's `getBorderStyles` (code.ts lines 85-105). -/
def getBorderStyles (ctx : Ctx) (node : Node) : Option (List Char) :=
  match node.strokes, node.strokeWeight with
  | some strokes, some strokeWeight =>
    if strokes.isEmpty then none
    else if strokeWeight.beq (Rq.ofInt 0) then none
    else
      match strokes.find? (fun s => s.visibleOk && s.isSolidT) with
      | some stroke =>
        let weight := jsRound strokeWeight
        if weight = 0 then none
        else
          let parentBg := ctx.parentBg node
          let eff := getEffectiveBackgroundColorForFills [stroke] parentBg
          some ("border: ".data ++ intToStr weight ++ "px solid ".data ++
            (eff.hex.getD "#000000".data) ++ ";".data)
      | none => none
  | _, _ => none

/-- The current revision's `getEffectiveBackgroundColor` (code.ts lines
138-144): nodes without a fills property contribute an empty list; a
`figma.mixed` fills value yields no own colour. -/
def getEffectiveBackgroundColor (node : Node) (parentBgColor : RgbColor) : EffColor :=
  match node.fills with
  | .arr fills => getEffectiveBackgroundColorForFills fills parentBgColor
  | .absent => getEffectiveBackgroundColorForFills [] parentBgColor
  | .mixed => ⟨none, parentBgColor⟩

mutual

/-- The `isVectorial` closure of `isIconGroup` (code.ts lines 149-155): a
leaf is vectorial when its kind is vector/ellipse/line/rectangle; an inner
node when every child is non-text and vectorial. -/
def isVectorial : Node → Bool
  | .mk d cs =>
    if cs.isEmpty then
      [NType.VECTOR, NType.ELLIPSE, NType.LINE, NType.RECTANGLE].contains d.type
    else isVectorialAll cs

/-- The `children.every` loop of `isVectorial`. -/
def isVectorialAll : List Node → Bool
  | [] => true
  | child :: rest => (!(child.type = NType.TEXT) && isVectorial child) && isVectorialAll rest

end

/-- The current revision's `isIconGroup` (code.ts lines 146-157). -/
def isIconGroup (node : Node) : Bool :=
  if node.children.isEmpty then false else isVectorial node

/-- The current revision's `isImageLikeNode` (code.ts lines 159-169). -/
def isImageLikeNode (node : Node) : Bool :=
  let hasImageFill : Bool :=
    match node.fills with | .arr fills => fills.any Paint.isImageT | _ => false
  if node.type = NType.RECTANGLE && hasImageFill then true
  else [NType.VECTOR, NType.LINE].contains node.type || isIconGroup node

/-- The escape chain of the current revision (code.ts lines 436-440 and
468-472): `&`, `<`, `>` to entities in that order, then newlines to line
breaks. -/
def sanitizeChars (s : List Char) : List Char :=
  replaceAllC '\n' "<br />".data
    (replaceAllC '>' "&gt;".data
      (replaceAllC '<' "&lt;".data
        (replaceAllC '&' "&amp;".data s)))

/-- The current revision's `styleObjectToInlineCss` (code.ts lines 486-518);
the `!style` guard cannot fire here because segments are always present. -/
def styleObjectToInlineCss (style : Seg) (parentBgColor : RgbColor) : List Char :=
  let fillStyles :=
    if !style.fills.isEmpty then
      match (getEffectiveBackgroundColorForFills style.fills parentBgColor).hex with
      | some colorHex => ["color: ".data ++ colorHex]
      | none => []
    else []
  let fontStyles :=
    match style.fontName with
    | some fontName =>
      ["font-family: ".data ++ [qc] ++ fontName.family ++ [qc] ++ ", sans-serif".data] ++
      (if isSubstr "bold".data (toLowerStr fontName.style) then ["font-weight: 700".data] else [])
    | none => []
  let sizeStyles :=
    if !style.fontSize.beq (Rq.ofInt 0) then
      ["font-size: ".data ++ intToStr (jsRound style.fontSize) ++ "px".data]
    else []
  let lineHeightStyles :=
    match style.lineHeight with
    | .PIXELS value => ["line-height: ".data ++ intToStr (jsRound value) ++ "px".data]
    | .PERCENT value => ["line-height: ".data ++ intToStr (jsRound value) ++ "%".data]
    | .AUTO => []
  let decorationStyles :=
    match style.textDecoration with
    | .STRIKETHROUGH => ["text-decoration: line-through".data]
    | .UNDERLINE => ["text-decoration: underline".data]
    | .NONE => []
  sanitizeStyles (cleanZeroValueStyles
    (joinC ';' (fillStyles ++ fontStyles ++ sizeStyles ++ lineHeightStyles ++ decorationStyles)))

/-- The current revision's `renderTextContent` (code.ts lines 458-484):
per segment, skip `figma.mixed` fonts, escape the characters, map a trimmed
bullet glyph to its entity, and wrap in a styled span when styles exist. -/
def renderTextContent (node : Node) (parentBgColor : RgbColor) : List Char :=
  if (trim node.characters).isEmpty then []
  else
    node.segments.foldl (fun htmlOutput segment =>
      match segment.fontName with
      | none => htmlOutput
      | some _ =>
        let styleCss := styleObjectToInlineCss segment parentBgColor
        let sanitizedChars := sanitizeChars segment.characters
        let finalContent := (bulletCharacterMap (trim sanitizedChars)).getD sanitizedChars
        if !styleCss.isEmpty then
          htmlOutput ++ "<span style=\"".data ++ styleCss ++ "\">".data ++
            finalContent ++ "</span>".data
        else htmlOutput ++ finalContent) []

/-- The current revision's `renderText` (code.ts lines 417-456), with the
single-run optimisation inlining the run's styles on the cell. -/
def renderText (ctx : Ctx) (node : Node) (parentBgColor : RgbColor) : List Char :=
  if (trim node.characters).isEmpty then []
  else
    let textAlign := toLowerStr
      (if node.textAlignHorizontal = [] then "LEFT".data else node.textAlignHorizontal)
    let alignAttr := if textAlign ≠ "left".data then "align=\"".data ++ textAlign ++ "\"".data else []
    match node.segments with
    | [segment] =>
      match segment.fontName with
      | none => []
      | some _ =>
        let styleCss := styleObjectToInlineCss segment parentBgColor
        let borderStyles := getBorderStyles ctx node
        let textAlignStyle := "text-align: ".data ++ textAlign ++ ";".data
        let allStyles := sanitizeStyles
          (joinTruthy [some textAlignStyle, some styleCss, borderStyles])
        let styleAttr := if !allStyles.isEmpty then "style=\"".data ++ allStyles ++ "\"".data else []
        let sanitizedChars := sanitizeChars node.characters
        "<table cellpadding=\"0\" cellspacing=\"0\" border=\"0\" role=\"presentation\" width=\"100%\"><tr><td ".data ++
          alignAttr ++ " ".data ++ styleAttr ++ ">".data ++ sanitizedChars ++ "</td></tr></table>".data
    | segments =>
      let contentHtml := renderTextContent node parentBgColor
      if contentHtml.isEmpty then []
      else
        let containerStyles := sanitizeStyles (cleanZeroValueStyles
          (joinTruthy [getBorderStyles ctx node]))
        let textAlignStyle := "text-align: ".data ++ textAlign ++ ";".data
        let finalTdStyle :=
          if !containerStyles.isEmpty then containerStyles ++ ";".data ++ textAlignStyle
          else textAlignStyle
        let styleAttr := if !finalTdStyle.isEmpty then "style=\"".data ++ finalTdStyle ++ "\"".data else []
        let _ := segments
        "<table cellpadding=\"0\" cellspacing=\"0\" border=\"0\" role=\"presentation\" width=\"100%\"><tr><td ".data ++
          alignAttr ++ " ".data ++ styleAttr ++ ">".data ++ contentHtml ++ "</td></tr></table>".data

/-- The current revision's `renderBulletPoint` (code.ts lines 520-529).
Classification guarantees two text children; on a malformed tree the source
would throw, embedded here as the empty fragment. -/
def renderBulletPoint (node : Node) (parentWidth : Rq) (parentBgColor : RgbColor) : List Char :=
  match node.children with
  | bulletNode :: textNode :: _ =>
    let itemSpacing := node.itemSpacing.getD (Rq.ofInt 8)
    let bulletHtml := renderTextContent bulletNode parentBgColor
    let textHtml := renderTextContent textNode parentBgColor
    "<table width=\"100%\" border=\"0\" cellpadding=\"0\" cellspacing=\"0\" role=\"presentation\"><tr><td style=\"width:1%;\" valign=\"top\">".data ++
      bulletHtml ++ "</td><td width=\"".data ++ rqToStr itemSpacing ++ "\">&nbsp;</td><td valign=\"top\">".data ++
      textHtml ++ "</td></tr></table>".data
  | _ => []

/-- The current revision's `renderCta` (code.ts lines 214-239): the anchor
button path for a confirmed call-to-action.  The interpolated label
`textNode.characters` is emitted as-is.  Classification guarantees the
shape/text children; on a malformed tree the source would throw, embedded
here as the empty fragment. -/
def renderCta (node : Node) (parentBgColor : RgbColor) : List Char :=
  match node.children.find? (fun n => n.type = NType.RECTANGLE ∨ n.type = NType.ELLIPSE),
        node.children.find? (fun n => n.type = NType.TEXT) with
  | some shapeNode, some textNode =>
    match textNode.fontName, textNode.fontSize with
    | some fontName, some fontSize =>
      let bgColor := (getEffectiveBackgroundColor shapeNode parentBgColor).hex
      let finalBgColor := bgColor.getD "#6D28D9".data
      let borderRadius := shapeNode.cornerRadius.getD (Rq.ofInt 6)
      let textColor := (getEffectiveBackgroundColor textNode
        ⟨Rq.ofInt 0, Rq.ofInt 0, Rq.ofInt 0⟩).hex
      let finalTextColor := textColor.getD "#FFFFFF".data
      let fontWeight := if isSubstr "bold".data (toLowerStr fontName.style)
        then "700".data else "400".data
      let finalFontSize := jsRound fontSize
      let href := "#".data
      "<table border=\"0\" cellpadding=\"0\" cellspacing=\"0\" role=\"presentation\"><tr><td align=\"center\" style=\"border-radius: ".data ++
        rqToStr borderRadius ++ "px; background-color: ".data ++ finalBgColor ++ ";\" bgcolor=\"".data ++
        finalBgColor ++ "\"><a href=\"".data ++ href ++ "\" target=\"_blank\" style=\"font-family: ".data ++
        [qc] ++ fontName.family ++ [qc] ++ ", Arial, sans-serif; font-size: ".data ++
        intToStr finalFontSize ++ "px; font-weight: ".data ++ fontWeight ++ "; color: ".data ++
        finalTextColor ++ "; text-decoration: none; padding: 12px 24px; border-radius: ".data ++
        rqToStr borderRadius ++ "px; display: inline-block;\">".data ++
        textNode.characters ++ "</a></td></tr></table>".data
    | _, _ => []
  | _, _ => []

/-- The current revision's `renderShape` (code.ts lines 531-564): degenerate
shapes (width or height below one pixel) render as the empty fragment. -/
def renderShape (ctx : Ctx) (node : Node) (parentWidth : Rq) (parentBgColor : RgbColor) : List Char :=
  if Rq.blt node.width (Rq.ofInt 1) ∨ Rq.blt node.height (Rq.ofInt 1) then []
  else
    let bgColorHex := (getEffectiveBackgroundColor node parentBgColor).hex
    let finalHeight := jsRound node.height
    let cellStyles := sanitizeStyles (cleanZeroValueStyles (joinTruthy
      [bgColorHex.map (fun h => "background-color:".data ++ h),
       some ("height:".data ++ intToStr finalHeight ++ "px;".data),
       some "font-size:1px;".data,
       some "line-height:1px;".data,
       getBorderStyles ctx node]))
    let bgColorAttr := match bgColorHex with
      | some h => "bgcolor=\"".data ++ h ++ "\"".data
      | none => []
    let styleAttr := if !cellStyles.isEmpty then "style=\"".data ++ cellStyles ++ "\"".data else []
    "<table width=\"100%\" height=\"".data ++ intToStr finalHeight ++
      "\" cellpadding=\"0\" cellspacing=\"0\" border=\"0\" role=\"presentation\"><tr><td ".data ++
      bgColorAttr ++ " ".data ++ styleAttr ++ ">&nbsp;</td></tr></table>".data

/-- Percent-encoding of the host's `encodeURIComponent` (UTF-8 bytes,
upper-case hex, unreserved characters kept). -/
def utf8Bytes (u : Nat) : List Nat :=
  if u < 128 then [u]
  else if u < 2048 then [192 + u / 64, 128 + u % 64]
  else if u < 65536 then [224 + u / 4096, 128 + (u / 64) % 64, 128 + u % 64]
  else [240 + u / 262144, 128 + (u / 4096) % 64, 128 + (u / 64) % 64, 128 + u % 64]

def isUnreservedUri (c : Char) : Bool :=
  (('a' ≤ c ∧ c ≤ 'z') ∨ ('A' ≤ c ∧ c ≤ 'Z') ∨ ('0' ≤ c ∧ c ≤ '9')) ||
  ['-', '_', '.', '!', '~', '*', Char.ofNat 39, '(', ')'].contains c

def encodeURIComponent (s : List Char) : List Char :=
  s.flatMap (fun c =>
    if isUnreservedUri c then [c]
    else (utf8Bytes c.toNat).flatMap (fun b =>
      ['%', hexDigitUpper (b / 16), hexDigitUpper (b % 16)]))

/-- The current revision's `renderImagePlaceholder` (code.ts lines 566-581):
degenerate nodes render as the empty fragment; otherwise a placeholder
service URL encodes the clamped width and the height. -/
def renderImagePlaceholder (node : Node) (parentWidth : Rq) : List Char :=
  if Rq.blt node.width (Rq.ofInt 1) ∨ Rq.blt node.height (Rq.ofInt 1) then []
  else
    let w := jsRound node.width
    let h := jsRound node.height
    let finalWidth := Rq.maxQ (Rq.ofInt 1) (Rq.minQ (Rq.ofInt w) parentWidth)
    let url := "https://placehold.co/".data ++ rqToStr finalWidth ++ "x".data ++ intToStr h ++
      "/EFEFEF/7F7F7F?text=".data ++
      encodeURIComponent (rqToStr finalWidth ++ " x ".data ++ intToStr h)
    "<img src=\"".data ++ url ++ "\" width=\"".data ++ rqToStr finalWidth ++ "\" alt=\"".data ++
      (if node.name = [] then "Image".data else node.name) ++
      "\" style=\"display: block; border: 0; width: 100%; max-width: ".data ++
      rqToStr finalWidth ++ "px; height: auto;\" />".data

end CT

/- ### Termination infrastructure for the recursive tree walk.
The render recursion visits children of a (sorted, filtered) copy of the
child list; these lemmas let the well-founded recursion see that each
visited node is structurally smaller. -/

theorem insByY_perm (a : Node) (l : List Node) : List.Perm (insByY a l) (a :: l) := by
  induction l with
  | nil => simp [insByY]
  | cons b bs ih =>
    simp only [insByY]
    split
    · exact (ih.cons b).trans (List.Perm.swap a b bs)
    · exact List.Perm.refl _

theorem sortByY_perm (l : List Node) : List.Perm (sortByY l) l := by
  suffices H : ∀ (l acc : List Node),
      List.Perm (l.foldl (fun acc x => insByY x acc) acc) (l.reverse ++ acc) by
    have h := H l []
    simp only [List.append_nil] at h
    exact h.trans (List.reverse_perm l)
  intro l
  induction l with
  | nil => intro acc; simp
  | cons b bs ih =>
    intro acc
    simp only [List.foldl_cons]
    refine (ih _).trans ?_
    refine (List.Perm.append_left _ (insByY_perm b acc)).trans ?_
    simp only [List.reverse_cons, List.append_assoc, List.singleton_append]
    exact List.Perm.refl _

theorem perm_sizeOf_nodes {l1 l2 : List Node} (h : List.Perm l1 l2) : sizeOf l1 = sizeOf l2 := by
  induction h with
  | nil => rfl
  | cons x _ ih => simp [ih]
  | swap x y l => simp; omega
  | trans _ _ ih1 ih2 => omega

theorem sizeOf_sortByY (l : List Node) : sizeOf (sortByY l) = sizeOf l :=
  perm_sizeOf_nodes (sortByY_perm l)

theorem sizeOf_node_children_lt (n : Node) : sizeOf n.children < sizeOf n := by
  cases n with
  | mk d cs =>
    simp only [Node.children, Node.mk.sizeOf_spec]
    omega

theorem sizeOf_filter_nodes_le (p : Node → Bool) (l : List Node) :
    sizeOf (l.filter p) ≤ sizeOf l := by
  induction l with
  | nil => simp
  | cons a l ih =>
    simp only [List.filter_cons]
    split
    · simp only [List.cons.sizeOf_spec]; omega
    · simp only [List.cons.sizeOf_spec]; omega

namespace CT

/-- Children as gathered and ordered by `renderStackedChildren` (code.ts
lines 246-249): visible children, sorted by vertical position unless the
container is a true vertical auto-layout. -/
def stackedChildrenOf (parentNode : Node) : List Node :=
  let children := parentNode.children.filter (fun c => c.visible)
  match parentNode.layoutMode with
  | some lm => if lm ≠ LMode.VERTICAL then sortByY children else children
  | none => children

theorem sizeOf_stackedChildrenOf_lt (n : Node) : sizeOf (stackedChildrenOf n) < sizeOf n := by
  have hf := sizeOf_filter_nodes_le (fun c => c.visible) n.children
  have hc := sizeOf_node_children_lt n
  unfold stackedChildrenOf
  rcases h : n.layoutMode with _ | lm
  · simp only []
    omega
  · simp only []
    split
    · rw [sizeOf_sortByY]; omega
    · omega

/-- The filler row of the vertical stack (code.ts lines 261-263). -/
def fillerRowCT (verticalGap : Int) : List Char :=
  "<tr><td height=\"".data ++ intToStr verticalGap ++ "\" style=\"font-size:".data ++
    intToStr verticalGap ++ "px; line-height:".data ++ intToStr verticalGap ++
    "px;\" colspan=\"3\">&nbsp;</td></tr>".data

/-- One child row of the vertical stack, flanked by the padding spacer cells
(code.ts lines 272-285). -/
def stackRowCT (paddingLeft paddingRight : Int) (childHtml : List Char) : List Char :=
  let leftSpacerCell :=
    if 0 < paddingLeft then
      "<td class=\"gutter\" width=\"".data ++ intToStr paddingLeft ++ "\">&nbsp;</td>".data
    else []
  let contentCellHtml := "<td>".data ++ childHtml ++ "</td>".data
  let rightSpacerCell :=
    if 0 < paddingRight then
      "<td class=\"gutter\" width=\"".data ++ intToStr paddingRight ++ "\">&nbsp;</td>".data
    else []
  "<tr>".data ++ leftSpacerCell ++ contentCellHtml ++ rightSpacerCell ++ "</tr>".data

/-- The horizontal spacer cell (code.ts line 410). -/
def horizSpacerCT (itemSpacing : Int) : List Char :=
  "<td width=\"".data ++ intToStr itemSpacing ++
    "\" style=\"font-size:0; line-height:0;\">&nbsp;</td>".data

mutual

/-- The current revision's `renderNode` (code.ts lines 171-212): invisible
nodes are skipped; containers are classified (icon group, bullet, confirmed
call-to-action, plain container); rectangles and ellipses with an image fill
become image placeholders, otherwise flat shapes; text, vectors and lines
take their dedicated paths; unsupported kinds render as the empty
fragment. -/
def renderNode (ctx : Ctx) (node : Node) (parentWidth : Rq) (parentBgColor : RgbColor) : List Char :=
  if !node.visible then []
  else
    match node.type with
    | NType.FRAME | NType.GROUP | NType.COMPONENT | NType.INSTANCE =>
      if isIconGroup node then renderImagePlaceholder node parentWidth
      else if isBulletPoint node then renderBulletPoint node parentWidth parentBgColor
      else if ctx.confirmedCtaIds.contains node.id && isPotentialCta node then
        renderCta node parentBgColor
      else renderContainer ctx node parentWidth parentBgColor false
    | NType.RECTANGLE | NType.ELLIPSE =>
      let hasImageFill : Bool :=
        match node.fills with | .arr fills => fills.any Paint.isImageT | _ => false
      if hasImageFill then renderImagePlaceholder node parentWidth
      else renderShape ctx node parentWidth parentBgColor
    | NType.TEXT => renderText ctx node parentBgColor
    | NType.VECTOR | NType.LINE => renderImagePlaceholder node parentWidth
    | NType.OTHER => []
termination_by (sizeOf node, 3)
decreasing_by
  all_goals
    simp only [Prod.lex_def]
    right
    exact ⟨trivial, by decide⟩

/-- The current revision's `renderStackedChildren` (code.ts lines 241-291):
visible children in vertical order, a filler row when the rounded gap to the
previous bottom exceeds two pixels, padding as spacer cells, the parent's
horizontal padding subtracted from the width budget. -/
def renderStackedChildren (ctx : Ctx) (parentNode : Node) (parentWidth : Rq)
    (parentBgColor : RgbColor) : List Char :=
  let children := stackedChildrenOf parentNode
  let lastBottomY := parentNode.paddingTop.getD (Rq.ofInt 0)
  let paddingLeft := match parentNode.paddingLeft with | some v => jsRound v | none => 0
  let paddingRight := match parentNode.paddingRight with | some v => jsRound v | none => 0
  let availableWidth := (parentWidth.sub (Rq.ofInt paddingLeft)).sub (Rq.ofInt paddingRight)
  let rows := stackLoop ctx availableWidth parentBgColor paddingLeft paddingRight children lastBottomY
  "<table width=\"100%\" border=\"0\" cellpadding=\"0\" cellspacing=\"0\" role=\"presentation\">".data ++
    rows.flatten ++ "</table>".data
termination_by (sizeOf parentNode, 1)
decreasing_by
  all_goals
    simp only [Prod.lex_def]
    left
    exact sizeOf_stackedChildrenOf_lt parentNode

/-- The child loop of `renderStackedChildren` (code.ts lines 258-288),
carrying `lastBottomY`. -/
def stackLoop (ctx : Ctx) (availableWidth : Rq) (parentBgColor : RgbColor)
    (paddingLeft paddingRight : Int) :
    List Node → Rq → List (List Char)
  | [], _ => []
  | child :: rest, lastBottomY =>
    let verticalGap := jsRound (child.y.sub lastBottomY)
    let fillerRows := if 2 < verticalGap then [fillerRowCT verticalGap] else []
    let childHtml := renderNode ctx child availableWidth parentBgColor
    let childRows := if !childHtml.isEmpty then [stackRowCT paddingLeft paddingRight childHtml] else []
    fillerRows ++ childRows ++
      stackLoop ctx availableWidth parentBgColor paddingLeft paddingRight rest
        (child.y.add child.height)
termination_by l _ => (sizeOf l, 0)
decreasing_by
  all_goals
    simp only [Prod.lex_def]
    left
    simp only [List.cons.sizeOf_spec]
    omega

/-- The current revision's `renderContainer` (code.ts lines 293-366): an
empty, unstyled container renders as the empty fragment; the width is the
page width for roots and otherwise clamped to the budget; near-full-width or
large containers become fluid; children are arranged by layout mode; the
parent's vertical padding becomes dedicated filler rows. -/
def renderContainer (ctx : Ctx) (node : Node) (parentWidth : Rq) (parentBgColor : RgbColor)
    (isRoot : Bool) : List Char :=
  let children := node.children.filter (fun c => !(c.visible = false))
  let eff := getEffectiveBackgroundColor node parentBgColor
  let bgColorHex := eff.hex
  let effectiveBgRgb := eff.rgb
  if children.isEmpty ∧ bgColorHex = none ∧ getBorderStyles ctx node = none then []
  else
    let nodeWidth := jsRound node.width
    let finalWidth := if isRoot then Rq.ofInt 600 else Rq.minQ (Rq.ofInt nodeWidth) parentWidth
    let isFluid := !isRoot &&
      (Rq.blt ⟨95, 100, by decide⟩ ((Rq.ofInt nodeWidth).div parentWidth) || 450 < nodeWidth)
    let tableStyles := sanitizeStyles (cleanZeroValueStyles (joinTruthy
      [bgColorHex.map (fun h => "background-color:".data ++ h), getBorderStyles ctx node]))
    let tableStyleAttr := if !tableStyles.isEmpty then "style=\"".data ++ tableStyles ++ "\"".data else []
    let tableBgColorAttr := match bgColorHex with
      | some h => "bgcolor=\"".data ++ h ++ "\"".data
      | none => []
    let tableWidthAttr :=
      if isRoot then "width=\"".data ++ rqToStr finalWidth ++ "\"".data
      else if isFluid then "width=\"100%\"".data
      else "width=\"".data ++ rqToStr finalWidth ++ "\"".data
    let className := if isRoot then "class=\"wrapper\"".data else []
    let innerHtml :=
      if node.layoutMode.getD LMode.NONE = LMode.HORIZONTAL then
        renderHorizontalChildren ctx node finalWidth effectiveBgRgb
      else renderStackedChildren ctx node finalWidth effectiveBgRgb
    let paddingTop := match node.paddingTop with | some v => jsRound v | none => 0
    let paddingBottom := match node.paddingBottom with | some v => jsRound v | none => 0
    let paddingTopHtml :=
      if 0 < paddingTop then
        "<tr><td height=\"".data ++ intToStr paddingTop ++ "\" style=\"font-size:".data ++
          intToStr paddingTop ++ "px; line-height:".data ++ intToStr paddingTop ++
          "px;\">&nbsp;</td></tr>".data
      else []
    let paddingBottomHtml :=
      if 0 < paddingBottom then
        "<tr><td height=\"".data ++ intToStr paddingBottom ++ "\" style=\"font-size:".data ++
          intToStr paddingBottom ++ "px; line-height:".data ++ intToStr paddingBottom ++
          "px;\">&nbsp;</td></tr>".data
      else []
    let finalInnerHtml := "\n      ".data ++ paddingTopHtml ++ "\n      ".data ++
      (if !innerHtml.isEmpty then "<tr><td>".data ++ innerHtml ++ "</td></tr>".data else []) ++
      " \n      ".data ++ paddingBottomHtml ++ "\n    ".data
    "<table ".data ++ className ++ " ".data ++ tableWidthAttr ++ " ".data ++ tableBgColorAttr ++
      " ".data ++ tableStyleAttr ++
      " cellpadding=\"0\" cellspacing=\"0\" border=\"0\" role=\"presentation\">".data ++
      finalInnerHtml ++ "</table>".data
termination_by (sizeOf node, 2)
decreasing_by
  all_goals
    simp only [Prod.lex_def]
    right
    exact ⟨trivial, by decide⟩

/-- The current revision's `renderHorizontalChildren` (code.ts lines
368-415): one cell per visible child, image-like children with a fixed pixel
width, multi-child containers with a proportional percentage width, and
fixed spacer cells between children. -/
def renderHorizontalChildren (ctx : Ctx) (node : Node) (parentWidth : Rq)
    (parentBgColor : RgbColor) : List Char :=
  let children := node.children.filter (fun c => !(c.visible = false))
  let itemSpacing := match node.itemSpacing with | some v => jsRound v | none => 0
  let totalChildWidth := children.foldl (fun sum c => sum.add c.width) (Rq.ofInt 0)
  let totalSpacing := itemSpacing * ((children.length : Int) - 1)
  let totalContentWidth := totalChildWidth.add (Rq.ofInt totalSpacing)
  let cells := horizLoop ctx parentBgColor itemSpacing totalContentWidth children.length children
  "<table width=\"100%\" border=\"0\" cellpadding=\"0\" cellspacing=\"0\" role=\"presentation\"><tr>".data ++
    cells.flatten ++ "</tr></table>".data
termination_by (sizeOf node, 1)
decreasing_by
  all_goals
    simp only [Prod.lex_def]
    left
    exact Nat.lt_of_le_of_lt (sizeOf_filter_nodes_le _ _) (sizeOf_node_children_lt node)

/-- The child loop of `renderHorizontalChildren` (code.ts lines 386-412);
`childrenLen` is the length of the whole filtered child list. -/
def horizLoop (ctx : Ctx) (parentBgColor : RgbColor) (itemSpacing : Int)
    (totalContentWidth : Rq) (childrenLen : Nat) :
    List Node → List (List Char)
  | [] => []
  | child :: rest =>
    let colWidth := jsRound child.width
    let widthAttr :=
      if isImageLikeNode child then "width=\"".data ++ intToStr colWidth ++ "\"".data
      else if [NType.FRAME, NType.GROUP, NType.INSTANCE, NType.COMPONENT].contains child.type ∧
          1 < childrenLen then
        "width=\"".data ++ toFixed2 (((Rq.ofInt colWidth).div totalContentWidth).mul (Rq.ofInt 100)) ++
          "%\"".data
      else []
    let childHtml := renderNode ctx child (Rq.ofInt colWidth) parentBgColor
    let finalWidthAttr := if !widthAttr.isEmpty then " ".data ++ widthAttr else []
    let cell := "<td".data ++ finalWidthAttr ++ " valign=\"top\">".data ++ childHtml ++ "</td>".data
    let spacerCells := if (!rest.isEmpty) ∧ 0 < itemSpacing then [horizSpacerCT itemSpacing] else []
    cell :: spacerCells ++ horizLoop ctx parentBgColor itemSpacing totalContentWidth childrenLen rest
termination_by l => (sizeOf l, 0)
decreasing_by
  all_goals
    simp only [Prod.lex_def]
    left
    simp only [List.cons.sizeOf_spec]
    omega

end

end CT

/- ### The download-mode revision (src/unnamed/part_000, second document) -/

/-- The three image export modes of the download-mode revision. -/
inductive IEMode where
  | placeholder | base64 | download
  deriving DecidableEq

/-- An exported asset `{name, data}` of the download mode. -/
structure ImageAsset where
  name : List Char
  data : List Nat
  deriving DecidableEq

/-- The per-pass mutable fields of the parser: the collected asset list and
the sequential image counter. -/
structure DlState where
  imageAssets : List ImageAsset
  imageCounter : Nat
  deriving DecidableEq

/-- The host's `figma.base64Encode` (standard base64 over raw bytes). -/
def b64Char (i : Nat) : Char :=
  "ABCDEFGHIJKLMNOPQRSTUVWXYZabcdefghijklmnopqrstuvwxyz0123456789+/".data.getD i 'A'

def base64Encode : List Nat → List Char
  | [] => []
  | [a] => [b64Char (a / 4), b64Char (a % 4 * 16), '=', '=']
  | [a, b] => [b64Char (a / 4), b64Char (a % 4 * 16 + b / 16), b64Char (b % 16 * 4), '=']
  | a :: b :: c :: rest =>
    [b64Char (a / 4), b64Char (a % 4 * 16 + b / 16), b64Char (b % 16 * 4 + c / 64),
     b64Char (c % 64)] ++ base64Encode rest

namespace DL

/-- Render context of the download-mode revision: the external parent-chain
background lookup (`findParentBackgroundColor`), the asynchronous image
exporter (`node.exportAsync` with the fixed PNG/double-resolution settings),
and the host's parent-is-page probe used by `parse`. -/
structure Ctx where
  parentBg : Node → RgbColor
  exportFn : Node → Except Unit (List Nat)
  parentIsPage : Node → Bool

/-- The download-mode revision's `sanitizeStyles` (part_000 lines 383-394):
property deduplication only, no font-family handling. -/
def sanitizeStep (m : List (List Char × List Char)) (rule : List Char) :
    List (List Char × List Char) :=
  let parts := splitOnC ':' rule
  let key := parts.headD []
  let valueParts := parts.tail
  let value := trim (joinC ':' valueParts)
  if key = [] ∨ value = [] then m
  else CT.mapSet m (trim key) value

def sanitizeStyles (styleStr : List Char) : List Char :=
  if styleStr = [] then []
  else
    let rules := (splitOnC ';' styleStr).filter (fun r => !(trim r).isEmpty)
    let entries := rules.foldl sanitizeStep []
    joinC ';' (entries.map (fun e => e.1 ++ ':' :: e.2))

/-- The zero-length test `^0(px|pt|em|%|vw|vh)?$` of the download-mode
revision (no `rem`). -/
def isZeroLengthDL (v : List Char) : Bool :=
  ["0".data, "0px".data, "0pt".data, "0em".data, "0%".data, "0vw".data, "0vh".data].contains v

/-- The rule filter of the download-mode revision's `cleanZeroValueStyles`
(part_000 lines 396-408): note that a rule whose trimmed key contains
`border-radius` is dropped regardless of its value (the `||` binds below the
`&&`). -/
def keepRuleDL (rule : List Char) : Bool :=
  if (trim rule).isEmpty then false
  else
    let parts := (splitOnC ':' rule).map trim
    let key := parts.headD []
    match parts with
    | _ :: value :: _ =>
      if value = [] then true
      else
        let isZero := isZeroLengthDL value
        if isSubstr "border-radius".data key ∨
            (("padding".data.isPrefixOf key ∨ "margin".data.isPrefixOf key ∨
              "border".data.isPrefixOf key) ∧ isZero) then false
        else true
    | _ => true

def cleanZeroValueStyles (styleStr : List Char) : List Char :=
  if styleStr = [] then []
  else joinC ';' ((splitOnC ';' styleStr).filter keepRuleDL)

/-- The download-mode revision's `getEffectiveBackgroundColorForFills`
(part_000 lines 430-451): the first visible fill wins; a gradient is
approximated by its first stop's colour with the stop's own alpha as the
effective opacity (the host guarantees a gradient has at least one stop; an
empty stop list would throw in the source and is embedded as no own colour).
The `?? 1` fallbacks on `opacity` and on the stop's mandatory alpha channel
are embedded by `Option.getD` and by the plain field. -/
def getEffectiveBackgroundColorForFills (fills : List Paint) (parentBgColor : RgbColor) : EffColor :=
  if fills.isEmpty then ⟨none, parentBgColor⟩
  else
    match fills.find? (fun f => f.visibleOk) with
    | none => ⟨none, parentBgColor⟩
    | some visibleFill =>
      match visibleFill with
      | .solid color opacity _ =>
        let op := opacity.getD (Rq.ofInt 1)
        if Rq.ble ⟨99, 100, by decide⟩ op then ⟨some (figmaColorToHex color), color⟩
        else
          let finalRgb := blendColors ⟨color.r, color.g, color.b, op⟩ parentBgColor
          ⟨some (figmaColorToHex finalRgb), finalRgb⟩
      | .gradient stops _ _ =>
        match stops with
        | stop :: _ =>
          let color : RgbColor := ⟨stop.color.r, stop.color.g, stop.color.b⟩
          let op := stop.color.a
          if Rq.ble ⟨99, 100, by decide⟩ op then ⟨some (figmaColorToHex color), color⟩
          else
            let finalRgb := blendColors ⟨color.r, color.g, color.b, op⟩ parentBgColor
            ⟨some (figmaColorToHex finalRgb), finalRgb⟩
        | [] => ⟨none, parentBgColor⟩
      | .image _ => ⟨none, parentBgColor⟩

/-- The download-mode revision's `getEffectiveBackgroundColor` (part_000
lines 453-459). -/
def getEffectiveBackgroundColor (node : Node) (parentBgColor : RgbColor) : EffColor :=
  match node.fills with
  | .arr fills => getEffectiveBackgroundColorForFills fills parentBgColor
  | .absent => getEffectiveBackgroundColorForFills [] parentBgColor
  | .mixed => ⟨none, parentBgColor⟩

/-- The download-mode revision's `getBorderStyles` (part_000 lines
410-421). -/
def getBorderStyles (ctx : Ctx) (node : Node) : Option (List Char) :=
  match node.strokes, node.strokeWeight with
  | some strokes, some strokeWeight =>
    if strokes.isEmpty then none
    else if strokeWeight.beq (Rq.ofInt 0) then none
    else
      match strokes.find? (fun s => s.visibleOk && s.isSolidT) with
      | some stroke =>
        let weight := jsRound strokeWeight
        if weight = 0 then none
        else
          let parentBg := ctx.parentBg node
          let eff := getEffectiveBackgroundColorForFills [stroke] parentBg
          some ("border: ".data ++ intToStr weight ++ "px solid ".data ++
            (eff.hex.getD "#000000".data) ++ ";".data)
      | none => none
  | _, _ => none

mutual

/-- The download-mode revision's `isImageLikeNode` (part_000 lines 461-468):
a rectangle/ellipse with an image fill, a vector/line, or a container whose
children are all non-text and image-like. -/
def isImageLikeNode : Node → Bool
  | .mk d cs =>
    let hasImageFill : Bool :=
      match d.fills with | .arr fills => fills.any Paint.isImageT | _ => false
    if (d.type = NType.RECTANGLE ∨ d.type = NType.ELLIPSE) && hasImageFill then true
    else if [NType.VECTOR, NType.LINE].contains d.type then true
    else if !cs.isEmpty then isImageLikeAll cs
    else false

/-- The `children.every` loop of `isImageLikeNode`. -/
def isImageLikeAll : List Node → Bool
  | [] => true
  | child :: rest => (!(child.type = NType.TEXT) && isImageLikeNode child) && isImageLikeAll rest

end

/-- The download-mode revision's `isBulletPoint` (part_000 lines 697-703). -/
def isBulletPointDL (node : Node) : Bool :=
  if node.type ≠ NType.FRAME ∨ !node.visible ∨ node.layoutMode ≠ some LMode.HORIZONTAL ∨
      node.children.length ≠ 2 then false
  else
    match node.children with
    | firstChild :: secondChild :: _ =>
      if firstChild.type ≠ NType.TEXT ∨ secondChild.type ≠ NType.TEXT then false
      else
        let bulletChar := trim firstChild.characters
        bulletChar.length = 1 && isBulletKey bulletChar
    | _ => false

/-- The download-mode revision's `styleObjectToInlineCss` (part_000 lines
588-605); only underline decoration is mapped in this revision. -/
def styleObjectToInlineCss (style : Seg) (parentBgColor : RgbColor) : List Char :=
  let fillStyles :=
    if !style.fills.isEmpty then
      match (getEffectiveBackgroundColorForFills style.fills parentBgColor).hex with
      | some colorHex => ["color: ".data ++ colorHex]
      | none => []
    else []
  let fontStyles :=
    match style.fontName with
    | some fontName =>
      ["font-family: ".data ++ [qc] ++ fontName.family ++ [qc] ++ ", sans-serif".data] ++
      (if isSubstr "bold".data (toLowerStr fontName.style) then ["font-weight: 700".data] else [])
    | none => []
  let sizeStyles :=
    if !style.fontSize.beq (Rq.ofInt 0) then
      ["font-size: ".data ++ intToStr (jsRound style.fontSize) ++ "px".data]
    else []
  let lineHeightStyles :=
    match style.lineHeight with
    | .PIXELS value => ["line-height: ".data ++ intToStr (jsRound value) ++ "px".data]
    | .PERCENT value => ["line-height: ".data ++ intToStr (jsRound value) ++ "%".data]
    | .AUTO => []
  let decorationStyles :=
    match style.textDecoration with
    | .UNDERLINE => ["text-decoration: underline".data]
    | _ => []
  sanitizeStyles (cleanZeroValueStyles
    (joinC ';' (fillStyles ++ fontStyles ++ sizeStyles ++ lineHeightStyles ++ decorationStyles)))

/-- The download-mode revision's `renderTextContent` (part_000 lines
574-586): per segment, skip `figma.mixed` fonts, escape `&`, `<`, `>`, map
newlines to line breaks, map a trimmed bullet glyph to its entity, and wrap
in a styled span when styles exist. -/
def renderTextContent (node : Node) (parentBgColor : RgbColor) : List Char :=
  if (trim node.characters).isEmpty then []
  else
    node.segments.foldl (fun htmlOutput segment =>
      match segment.fontName with
      | none => htmlOutput
      | some _ =>
        let styleCss := styleObjectToInlineCss segment parentBgColor
        let sanitizedChars := CT.sanitizeChars segment.characters
        let finalContent := (bulletCharacterMap (trim sanitizedChars)).getD sanitizedChars
        if !styleCss.isEmpty then
          htmlOutput ++ "<span style=\"".data ++ styleCss ++ "\">".data ++
            finalContent ++ "</span>".data
        else htmlOutput ++ finalContent) []

/-- The download-mode revision's `renderText` (part_000 lines 565-572). -/
def renderText (ctx : Ctx) (node : Node) (parentBgColor : RgbColor) : List Char :=
  if (trim node.characters).isEmpty then []
  else
    let textAlign := toLowerStr
      (if node.textAlignHorizontal = [] then "LEFT".data else node.textAlignHorizontal)
    let contentHtml := renderTextContent node parentBgColor
    let containerStyles := sanitizeStyles (cleanZeroValueStyles
      (CT.joinTruthy [getBorderStyles ctx node]))
    let finalTdStyle :=
      (if !containerStyles.isEmpty then containerStyles ++ ";".data else []) ++
        "text-align: ".data ++ textAlign ++ ";".data
    "<table cellpadding=\"0\" cellspacing=\"0\" border=\"0\" width=\"100%\"><tr><td align=\"".data ++
      textAlign ++ "\" style=\"".data ++ finalTdStyle ++ "\">".data ++ contentHtml ++
      "</td></tr></table>".data

/-- The download-mode revision's `renderBulletPoint` (part_000 lines
607-614).  Classification guarantees two text children; on a malformed tree
the source would throw, embedded here as the empty fragment. -/
def renderBulletPoint (node : Node) (parentBgColor : RgbColor) : List Char :=
  match node.children with
  | bulletNode :: textNode :: _ =>
    let itemSpacing := node.itemSpacing.getD (Rq.ofInt 8)
    let bulletHtml := renderTextContent bulletNode parentBgColor
    let textHtml := renderTextContent textNode parentBgColor
    "<table width=\"100%\" border=\"0\" cellpadding=\"0\" cellspacing=\"0\" role=\"presentation\"><tr><td style=\"width:1%;\" valign=\"top\">".data ++
      bulletHtml ++ "</td><td width=\"".data ++ rqToStr itemSpacing ++ "\" style=\"width: ".data ++
      rqToStr itemSpacing ++ "px;\">&nbsp;</td><td valign=\"top\">".data ++ textHtml ++
      "</td></tr></table>".data
  | _ => []

/-- The download-mode revision's `renderShape` (part_000 lines 616-623):
degenerate shapes render as the empty fragment. -/
def renderShape (ctx : Ctx) (node : Node) (parentBgColor : RgbColor) : List Char :=
  if Rq.blt node.width (Rq.ofInt 1) ∨ Rq.blt node.height (Rq.ofInt 1) then []
  else
    let bgColorHex := (getEffectiveBackgroundColor node parentBgColor).hex
    let finalHeight := jsRound node.height
    let cellStyles := sanitizeStyles (cleanZeroValueStyles (CT.joinTruthy
      [bgColorHex.map (fun h => "background-color:".data ++ h),
       some ("height:".data ++ intToStr finalHeight ++ "px;".data),
       some "font-size:1px;".data,
       some "line-height:1px;".data,
       getBorderStyles ctx node]))
    let bgColorAttr := match bgColorHex with
      | some h => "bgcolor=\"".data ++ h ++ "\"".data
      | none => []
    let styleAttr := if !cellStyles.isEmpty then "style=\"".data ++ cellStyles ++ "\"".data else []
    "<table width=\"100%\" height=\"".data ++ intToStr finalHeight ++
      "\" cellpadding=\"0\" cellspacing=\"0\" border=\"0\"><tr><td ".data ++
      bgColorAttr ++ " ".data ++ styleAttr ++ ">&nbsp;</td></tr></table>".data

/-- The image tag emitted by every successful branch of `renderImage`. -/
def imgTag (src : List Char) (finalWidth : Rq) (altText : List Char) : List Char :=
  "<img src=\"".data ++ src ++ "\" width=\"".data ++ rqToStr finalWidth ++ "\" alt=\"".data ++
    altText ++ "\" style=\"display: block; border: 0; width: 100%; max-width: ".data ++
    rqToStr finalWidth ++ "px; height: auto;\" />".data

/-- The download-mode revision's `renderImage` (part_000 lines 625-655):
degenerate nodes render as the empty fragment and leave the pass state
untouched; `placeholder` mode emits a placeholder URL without an export
call; otherwise the rasterised export is requested, and a failure is
recovered as an inline error fragment naming the node (the state again
untouched); `base64` mode emits a data URI; `download` mode advances the
counter, assigns `image-<n>.png` and appends the asset. -/
def renderImage (ctx : Ctx) (node : Node) (parentWidth : Rq) (mode : IEMode)
    (st : DlState) : List Char × DlState :=
  if Rq.blt node.width (Rq.ofInt 1) ∨ Rq.blt node.height (Rq.ofInt 1) then ([], st)
  else
    let finalWidth := Rq.minQ (Rq.ofInt (jsRound node.width)) parentWidth
    let altText := if node.name = [] then "Image".data else node.name
    if mode = IEMode.placeholder then
      let url := "https://placehold.co/".data ++ rqToStr finalWidth ++ "x".data ++
        intToStr (jsRound node.height) ++ "/EFEFEF/7F7F7F?text=".data ++
        rqToStr finalWidth ++ "x".data ++ intToStr (jsRound node.height)
      (imgTag url finalWidth altText, st)
    else
      match ctx.exportFn node with
      | .error _ =>
        ("<p style=\"color:red;\">Error exporting image: ".data ++ altText ++ "</p>".data, st)
      | .ok imageBytes =>
        if mode = IEMode.base64 then
          (imgTag ("data:image/png;base64,".data ++ base64Encode imageBytes) finalWidth altText, st)
        else
          let counter := st.imageCounter + 1
          let imageName := "image-".data ++ natToStr counter ++ ".png".data
          (imgTag ("images/".data ++ imageName) finalWidth altText,
           ⟨st.imageAssets ++ [⟨imageName, imageBytes⟩], counter⟩)

/-- Children as gathered and ordered by the download-mode revision's
`renderStackedChildren` (part_000 lines 492-493). -/
def stackedChildrenOf (parentNode : Node) : List Node :=
  let children := parentNode.children.filter (fun c => c.visible)
  match parentNode.layoutMode with
  | some lm => if lm ≠ LMode.VERTICAL then sortByY children else children
  | none => children

theorem sizeOf_stackedChildrenOf_lt_dl (n : Node) : sizeOf (stackedChildrenOf n) < sizeOf n := by
  have hf := sizeOf_filter_nodes_le (fun c => c.visible) n.children
  have hc := sizeOf_node_children_lt n
  unfold stackedChildrenOf
  rcases h : n.layoutMode with _ | lm
  · simp only []
    omega
  · simp only []
    split
    · rw [sizeOf_sortByY]; omega
    · omega

/-- The filler row of the download-mode vertical stack (part_000 line 502). -/
def fillerRowDL (verticalGap : Int) : List Char :=
  "<tr><td height=\"".data ++ intToStr verticalGap ++ "\" style=\"height:".data ++
    intToStr verticalGap ++ "px; font-size:".data ++ intToStr verticalGap ++
    "px; line-height:".data ++ intToStr verticalGap ++
    "px;\" colspan=\"3\">&nbsp;</td></tr>".data

/-- One child row of the download-mode vertical stack (part_000 lines
505-507); the padding spacers carry the raw padding values. -/
def stackRowDL (paddingLeft paddingRight : Rq) (childHtml : List Char) : List Char :=
  let leftSpacer :=
    if Rq.blt (Rq.ofInt 0) paddingLeft then
      "<td class=\"gutter\" width=\"".data ++ rqToStr paddingLeft ++ "\" style=\"width: ".data ++
        rqToStr paddingLeft ++ "px;\">&nbsp;</td>".data
    else []
  let rightSpacer :=
    if Rq.blt (Rq.ofInt 0) paddingRight then
      "<td class=\"gutter\" width=\"".data ++ rqToStr paddingRight ++ "\" style=\"width: ".data ++
        rqToStr paddingRight ++ "px;\">&nbsp;</td>".data
    else []
  "<tr>".data ++ leftSpacer ++ "<td>".data ++ childHtml ++ "</td>".data ++ rightSpacer ++
    "</tr>".data

mutual

/-- The download-mode revision's `renderNode` (part_000 lines 470-489):
invisible nodes are skipped, image-like nodes take the image path before
anything else, containers are classified (bullet, plain container), shapes,
text, and unsupported kinds as in the current revision. -/
def renderNode (ctx : Ctx) (node : Node) (parentWidth : Rq) (parentBgColor : RgbColor)
    (mode : IEMode) (st : DlState) : List Char × DlState :=
  if !node.visible then ([], st)
  else if isImageLikeNode node then renderImage ctx node parentWidth mode st
  else
    match node.type with
    | NType.FRAME | NType.GROUP | NType.COMPONENT | NType.INSTANCE =>
      if isBulletPointDL node then (renderBulletPoint node parentBgColor, st)
      else renderContainer ctx node parentWidth parentBgColor false mode st
    | NType.RECTANGLE | NType.ELLIPSE => (renderShape ctx node parentBgColor, st)
    | NType.TEXT => (renderText ctx node parentBgColor, st)
    | _ => ([], st)
termination_by (sizeOf node, 3)
decreasing_by
  all_goals
    simp only [Prod.lex_def]
    right
    exact ⟨trivial, by decide⟩

/-- The download-mode revision's `renderContainer` (part_000 lines 514-543):
an empty, unstyled container renders as the empty fragment; a styleless,
unpadded, non-root container is transparently flattened to its inner markup;
otherwise the children table is wrapped with background, border and vertical
padding rows. -/
def renderContainer (ctx : Ctx) (node : Node) (parentWidth : Rq) (parentBgColor : RgbColor)
    (isRoot : Bool) (mode : IEMode) (st : DlState) : List Char × DlState :=
  let eff := getEffectiveBackgroundColor node parentBgColor
  let bgColorHex := eff.hex
  let effectiveBgRgb := eff.rgb
  let children := node.children.filter (fun c => c.visible)
  if children.isEmpty ∧ bgColorHex = none ∧ getBorderStyles ctx node = none then ([], st)
  else
    let inner :=
      if node.layoutMode.getD LMode.NONE = LMode.HORIZONTAL then
        renderHorizontalChildren ctx node parentWidth effectiveBgRgb mode st
      else renderStackedChildren ctx node parentWidth effectiveBgRgb mode st
    let innerHtml := inner.1
    let st1 := inner.2
    let hasStyles := bgColorHex.isSome || (getBorderStyles ctx node).isSome
    let paddingTop := match node.paddingTop with | some v => jsRound v | none => 0
    let paddingBottom := match node.paddingBottom with | some v => jsRound v | none => 0
    if !hasStyles ∧ paddingTop = 0 ∧ paddingBottom = 0 ∧ !isRoot then (innerHtml, st1)
    else
      let tableStyles := sanitizeStyles (cleanZeroValueStyles (CT.joinTruthy
        [bgColorHex.map (fun h => "background-color:".data ++ h), getBorderStyles ctx node]))
      let paddingTopHtml :=
        if 0 < paddingTop then
          "<tr><td height=\"".data ++ intToStr paddingTop ++ "\" style=\"font-size:".data ++
            intToStr paddingTop ++ "px; line-height:".data ++ intToStr paddingTop ++
            "px;\">&nbsp;</td></tr>".data
        else []
      let paddingBottomHtml :=
        if 0 < paddingBottom then
          "<tr><td height=\"".data ++ intToStr paddingBottom ++ "\" style=\"font-size:".data ++
            intToStr paddingBottom ++ "px; line-height:".data ++ intToStr paddingBottom ++
            "px;\">&nbsp;</td></tr>".data
        else []
      let finalInnerHtml := paddingTopHtml ++
        (if !innerHtml.isEmpty then "<tr><td>".data ++ innerHtml ++ "</td></tr>".data else []) ++
        paddingBottomHtml
      let width := if isRoot then parentWidth else Rq.minQ node.width parentWidth
      ("<table width=\"".data ++ rqToStr width ++ "\" ".data ++
        (match bgColorHex with
         | some h => "bgcolor=\"".data ++ h ++ "\"".data
         | none => []) ++ " ".data ++
        (if !tableStyles.isEmpty then "style=\"".data ++ tableStyles ++ "\"".data else []) ++
        " cellpadding=\"0\" cellspacing=\"0\" border=\"0\" role=\"presentation\">".data ++
        finalInnerHtml ++ "</table>".data, st1)
termination_by (sizeOf node, 2)
decreasing_by
  all_goals
    simp only [Prod.lex_def]
    right
    exact ⟨trivial, by decide⟩

/-- The download-mode revision's `renderStackedChildren` (part_000 lines
491-512): visible children in vertical order, a filler row when the rounded
gap to the previous bottom exceeds two pixels, raw horizontal padding as
spacer cells, the padding subtracted from the width budget. -/
def renderStackedChildren (ctx : Ctx) (parentNode : Node) (parentWidth : Rq)
    (parentBgColor : RgbColor) (mode : IEMode) (st : DlState) : List Char × DlState :=
  let children := stackedChildrenOf parentNode
  let lastBottomY := parentNode.paddingTop.getD (Rq.ofInt 0)
  let paddingLeft := parentNode.paddingLeft.getD (Rq.ofInt 0)
  let paddingRight := parentNode.paddingRight.getD (Rq.ofInt 0)
  let availableWidth := (parentWidth.sub paddingLeft).sub paddingRight
  let loop := stackLoop ctx availableWidth parentBgColor paddingLeft paddingRight mode
    children lastBottomY st
  ("<table width=\"100%\" border=\"0\" cellpadding=\"0\" cellspacing=\"0\" role=\"presentation\">".data ++
    loop.1.flatten ++ "</table>".data, loop.2)
termination_by (sizeOf parentNode, 1)
decreasing_by
  all_goals
    simp only [Prod.lex_def]
    left
    exact sizeOf_stackedChildrenOf_lt_dl parentNode

/-- The child loop of the download-mode `renderStackedChildren` (part_000
lines 500-510), threading `lastBottomY` and the pass state. -/
def stackLoop (ctx : Ctx) (availableWidth : Rq) (parentBgColor : RgbColor)
    (paddingLeft paddingRight : Rq) (mode : IEMode) :
    List Node → Rq → DlState → List (List Char) × DlState
  | [], _, st => ([], st)
  | child :: rest, lastBottomY, st =>
    let verticalGap := jsRound (child.y.sub lastBottomY)
    let fillerRows := if 2 < verticalGap then [fillerRowDL verticalGap] else []
    let childOut := renderNode ctx child availableWidth parentBgColor mode st
    let childRows :=
      if !childOut.1.isEmpty then [stackRowDL paddingLeft paddingRight childOut.1] else []
    let restOut := stackLoop ctx availableWidth parentBgColor paddingLeft paddingRight mode rest
      (child.y.add child.height) childOut.2
    (fillerRows ++ childRows ++ restOut.1, restOut.2)
termination_by l _ _ => (sizeOf l, 0)
decreasing_by
  all_goals
    simp only [Prod.lex_def]
    left
    simp only [List.cons.sizeOf_spec]
    omega

/-- The download-mode revision's `renderHorizontalChildren` (part_000 lines
545-562): one cell per visible child, vertical alignment from the secondary
axis, a flexible full-width spacer for space-between rows, otherwise fixed
spacers of the item spacing. -/
def renderHorizontalChildren (ctx : Ctx) (node : Node) (parentWidth : Rq)
    (parentBgColor : RgbColor) (mode : IEMode) (st : DlState) : List Char × DlState :=
  let children := node.children.filter (fun c => !(c.visible = false))
  let itemSpacing := match node.itemSpacing with | some v => jsRound v | none => 0
  let isSpaceBetween := node.primaryAxisAlignItems = some AAlign.SPACE_BETWEEN ∧
    1 < children.length
  let loop := horizLoop ctx parentBgColor itemSpacing isSpaceBetween
    (node.counterAxisAlignItems) mode children st
  ("<table width=\"100%\" border=\"0\" cellpadding=\"0\" cellspacing=\"0\" role=\"presentation\"><tr>".data ++
    loop.1.flatten ++ "</tr></table>".data, loop.2)
termination_by (sizeOf node, 1)
decreasing_by
  all_goals
    simp only [Prod.lex_def]
    left
    exact Nat.lt_of_le_of_lt (sizeOf_filter_nodes_le _ _) (sizeOf_node_children_lt node)

/-- The child loop of the download-mode `renderHorizontalChildren` (part_000
lines 551-561). -/
def horizLoop (ctx : Ctx) (parentBgColor : RgbColor) (itemSpacing : Int)
    (isSpaceBetween : Prop) [Decidable isSpaceBetween] (counterAxis : Option AAlign)
    (mode : IEMode) : List Node → DlState → List (List Char) × DlState
  | [], st => ([], st)
  | child :: rest, st =>
    let childOut := renderNode ctx child child.width parentBgColor mode st
    let valign :=
      if counterAxis = some AAlign.MAX then "bottom".data
      else if counterAxis = some AAlign.CENTER then "middle".data
      else "top".data
    let cell := "<td valign=\"".data ++ valign ++ "\">".data ++ childOut.1 ++ "</td>".data
    let spacerCells :=
      if !rest.isEmpty then
        if isSpaceBetween then ["<td width=\"100%\">&nbsp;</td>".data]
        else if 0 < itemSpacing then
          ["<td width=\"".data ++ intToStr itemSpacing ++ "\" style=\"width: ".data ++
            intToStr itemSpacing ++ "px;\">&nbsp;</td>".data]
        else []
      else []
    let restOut := horizLoop ctx parentBgColor itemSpacing isSpaceBetween counterAxis mode rest
      childOut.2
    (cell :: spacerCells ++ restOut.1, restOut.2)
termination_by l _ => (sizeOf l, 0)
decreasing_by
  all_goals
    simp only [Prod.lex_def]
    left
    simp only [List.cons.sizeOf_spec]
    omega

end

/-- The filler row of the download-mode multi-selection stacking (part_000
line 680). -/
def parseFillerDL (gap : Int) : List Char :=
  "<tr><td height=\"".data ++ intToStr gap ++ "\" style=\"height:".data ++ intToStr gap ++
    "px; font-size:".data ++ intToStr gap ++ "px; line-height:".data ++ intToStr gap ++
    "px;\">&nbsp;</td></tr>".data

/-- The multi-selection loop of the download-mode `parse` (part_000 lines
677-691): a sized filler row between consecutive nodes when the rounded gap
exceeds two pixels, one row per node with non-blank markup, and the bottom
tracker advanced only by visible nodes. -/
def parseLoop (ctx : Ctx) (mode : IEMode) :
    List Node → Rq → Bool → DlState → List (List Char) × DlState
  | [], _, _, st => ([], st)
  | node :: rest, lastBottomY, isFirst, st =>
    let gapRows :=
      if isFirst then []
      else
        let gap := jsRound (node.y.sub lastBottomY)
        if 2 < gap then [parseFillerDL gap] else []
    let nodeOut := renderNode ctx node node.width ⟨Rq.ofInt 1, Rq.ofInt 1, Rq.ofInt 1⟩ mode st
    let nodeRows :=
      if !(trim nodeOut.1).isEmpty then ["<tr><td>".data ++ nodeOut.1 ++ "</td></tr>".data]
      else []
    let newBottom := if node.visible then node.y.add node.height else lastBottomY
    let restOut := parseLoop ctx mode rest newBottom false nodeOut.2
    (gapRows ++ nodeRows ++ restOut.1, restOut.2)

/-- The download-mode revision's `parse` (part_000 lines 657-694): an empty
selection renders as the empty string; otherwise the asset list and image
counter are reset before rendering; a single frame-like node renders as a
(possibly root) container, any other single node through `renderNode`;
several nodes are sorted by vertical position and stacked with inferred
gaps, without an outer wrapping table in this revision. -/
def parse (ctx : Ctx) (nodes : List Node) (imageExportMode : IEMode)
    (stIn : DlState) : List Char × DlState :=
  if nodes.isEmpty then ([], stIn)
  else
    let st : DlState := ⟨[], 0⟩
    let rootBgColor : RgbColor := ⟨Rq.ofInt 1, Rq.ofInt 1, Rq.ofInt 1⟩
    match nodes with
    | [node] =>
      let isRootSelection := ctx.parentIsPage node
      if node.type = NType.FRAME ∨ node.type = NType.COMPONENT ∨ node.type = NType.INSTANCE then
        renderContainer ctx node node.width rootBgColor isRootSelection imageExportMode st
      else renderNode ctx node node.width rootBgColor imageExportMode st
    | _ =>
      let sortedNodes := sortByY nodes
      let lastBottomY := match sortedNodes with | s :: _ => s.y | [] => Rq.ofInt 0
      let out := parseLoop ctx imageExportMode sortedNodes lastBottomY true st
      (out.1.flatten, out.2)

end DL

/- ### Spec-side definitions used to state the claims -/

/-- The per-occurrence escape map stated by the spec: each `&`, `<`, `>`
becomes its entity, each newline a line break, every other character is kept. -/
def escapeChar (c : Char) : List Char :=
  if c = '&' then "&amp;".data
  else if c = '<' then "&lt;".data
  else if c = '>' then "&gt;".data
  else if c = '\n' then "<br />".data
  else [c]

/-- The property name of a style rule, as parsed by the accumulator (the
segment before the first colon). -/
def ruleKey (r : List Char) : List Char := (splitOnC ':' r).headD []

/-- The value of a style rule, as parsed by the accumulator (everything
after the first colon, trimmed). -/
def ruleValue (r : List Char) : List Char := trim (joinC ':' (splitOnC ':' r).tail)

/-- A rule's property name is not whitespace-only: blank-but-nonempty
property names survive one accumulation pass as an empty name and are
dropped only on the next, which breaks idempotence. -/
def RuleKeyOK (r : List Char) : Prop := ruleKey r ≠ [] → trim (ruleKey r) ≠ []

/-- A `font-family` rule is quote-free and names at least one non-blank
family: removed quotes can expose new outer whitespace, and all-blank family
lists collapse to an empty value, both of which break idempotence. -/
def RuleFontOK (r : List Char) : Prop :=
  trim (ruleKey r) = "font-family".data →
    (qc ∉ r ∧ ∃ f ∈ splitOnC ',' (ruleValue r), trim f ≠ [])

/-- Well-formedness of a style string, under which the accumulation step is
idempotent. -/
def StyleWF (s : List Char) : Prop := ∀ r ∈ splitOnC ';' s, RuleKeyOK r ∧ RuleFontOK r

/-- The zero-pruning condition as the claim states it, for a well-formed
declaration `key:value`: the property's first hyphen component is `margin`,
`padding` or `border`, and the value is a zero length. -/
def ZeroPrunedDecl (k v : List Char) : Prop :=
  (["margin".data, "padding".data, "border".data].contains
    ((splitOnC '-' (trim k)).headD [])) = true ∧ CT.isZeroLengthCT (trim v) = true

/-- The font-list normalisation performed by the `font-family` branch of the
current revision's `sanitizeStyles`, as one function of the parsed value. -/
def processFonts (value : List Char) : List Char :=
  joinCS (dedupSet ((splitOnC ',' value).map (fun f => (trim f).filter (fun c => !(c = qc)))))

/-- The rule string written back for one accumulator entry. -/
def kvRule (e : List Char × List Char) : List Char := e.1 ++ ':' :: e.2

/-- Modify the last element of a list of strings. -/
def mLast (f : List Char → List Char) : List (List Char) → List (List Char)
  | [] => []
  | [p] => [f p]
  | p :: q :: r => p :: mLast f (q :: r)

/-- The invariant of the accumulator entries built by `sanitizeStyles` from a
well-formed style string: the property name is nonempty, trimmed and free of
separators; the value is nonempty with a nonempty trim and free of the rule
separator; the written-back rule passes the zero-value filter; and the value
is a fixed point of the processing that a second pass applies to it. -/
def EntryOK (e : List Char × List Char) : Prop :=
  e.1 ≠ [] ∧ trim e.1 = e.1 ∧ ':' ∉ e.1 ∧ ';' ∉ e.1 ∧
  e.2 ≠ [] ∧ trim e.2 ≠ [] ∧ ';' ∉ e.2 ∧
  CT.keepRuleCT (kvRule e) = true ∧
  (if e.1 = "font-family".data then processFonts (trim e.2) = e.2 else trim e.2 = e.2)

/-- What holds of every rule reaching the accumulator when the style string
is well-formed: it is separator-free, it survived the zero-value filter, its
trim is nonempty, and it satisfies the two well-formedness conditions. -/
def RuleOK (r : List Char) : Prop :=
  ';' ∉ r ∧ CT.keepRuleCT r = true ∧ RuleKeyOK r ∧ RuleFontOK r ∧ (trim r).isEmpty = false

/-- All entries satisfy the invariant and the keys are distinct. -/
def EntriesOK (m : List (List Char × List Char)) : Prop :=
  (∀ e ∈ m, EntryOK e) ∧ (m.map Prod.fst).Nodup

/- ### Concrete inputs used by counterexamples and witnesses -/

def rqHalf : Rq := ⟨1, 2, by decide⟩

def white : RgbColor := ⟨Rq.ofInt 1, Rq.ofInt 1, Rq.ofInt 1⟩

def blueBg : RgbColor := ⟨Rq.ofInt 0, Rq.ofInt 0, Rq.ofInt 1⟩

/-- A first-visible solid fill: pure red at opacity one half. -/
def redHalfFill : Paint := Paint.solid ⟨Rq.ofInt 1, Rq.ofInt 0, Rq.ofInt 0⟩ (some rqHalf) none

/-- A fill list whose first entry is invisible and whose first visible fill
is a solid at opacity `0.995`. -/
def fillsNearOpaque : List Paint :=
  [Paint.image (some false),
   Paint.solid ⟨Rq.ofInt 1, Rq.ofInt 0, Rq.ofInt 0⟩ (some ⟨995, 1000, by decide⟩) none]

def baseData : NData where
  type := NType.OTHER
  id := []
  name := []
  visible := true
  x := Rq.ofInt 0
  y := Rq.ofInt 0
  width := Rq.ofInt 0
  height := Rq.ofInt 0
  fills := FillsVal.absent
  strokes := none
  strokeWeight := none
  cornerRadius := none
  layoutMode := none
  paddingTop := none
  paddingBottom := none
  paddingLeft := none
  paddingRight := none
  itemSpacing := none
  primaryAxisAlignItems := none
  counterAxisAlignItems := none
  characters := []
  textAlignHorizontal := []
  fontName := none
  fontSize := none
  segments := []

/-- A one-run text segment in a concrete regular font. -/
def segOf (cs : List Char) : Seg where
  fontName := some ⟨"Arial".data, "Regular".data⟩
  fontSize := Rq.ofInt 16
  fills := [Paint.solid ⟨Rq.ofInt 0, Rq.ofInt 0, Rq.ofInt 0⟩ none none]
  lineHeight := LineH.AUTO
  textDecoration := TDec.NONE
  characters := cs

/-- A concrete visible text node at a given vertical position and height. -/
def textNodeAt (cs : List Char) (y0 h : Rq) : Node := Node.mk
  { baseData with
    type := NType.TEXT,
    y := y0,
    height := h,
    width := Rq.ofInt 100,
    characters := cs,
    textAlignHorizontal := "LEFT".data,
    segments := [segOf cs] } []

/-- The two stacked children of the gap-tolerance scenario: a text of height
30 at the top, and a second text whose vertical position is the parameter. -/
def stackTextA : Node := textNodeAt "A".data (Rq.ofInt 0) (Rq.ofInt 30)

def stackTextB (y2 : Rq) : Node := textNodeAt "B".data y2 (Rq.ofInt 20)

/-- A vertical auto-layout frame with zero padding holding the two stacked
texts; the second child's vertical position is the parameter. -/
def stackParent (y2 : Rq) : Node := Node.mk
  { baseData with
    type := NType.FRAME,
    width := Rq.ofInt 400,
    height := Rq.ofInt 200,
    layoutMode := some LMode.VERTICAL,
    paddingTop := some (Rq.ofInt 0),
    paddingBottom := some (Rq.ofInt 0),
    paddingLeft := some (Rq.ofInt 0),
    paddingRight := some (Rq.ofInt 0) }
  [stackTextA, stackTextB y2]

/-- A current-revision context with no confirmed CTA ids and a white parent
chain. -/
def ctxPlain : CT.Ctx := ⟨[], fun _ => white⟩

/-- A current-revision context in which only the id `cta-1` is confirmed. -/
def ctxCta : CT.Ctx := ⟨["cta-1".data], fun _ => white⟩

/-- The text child of the CTA scenario; its characters contain `<`, `&` and
a newline. -/
def ctaTextChild : Node := Node.mk
  { baseData with
    type := NType.TEXT,
    width := Rq.ofInt 80,
    height := Rq.ofInt 20,
    characters := "a<b&c\nd".data,
    textAlignHorizontal := "CENTER".data,
    fontName := some ⟨"Arial".data, "Bold".data⟩,
    fontSize := some (Rq.ofInt 14),
    segments := [segOf "a<b&c\nd".data] } []

/-- The shape child of the CTA scenario. -/
def ctaShapeChild : Node := Node.mk
  { baseData with
    type := NType.RECTANGLE,
    width := Rq.ofInt 120,
    height := Rq.ofInt 40,
    fills := FillsVal.arr [Paint.solid ⟨Rq.ofInt 0, rqHalf, Rq.ofInt 1⟩ none none],
    cornerRadius := some (Rq.ofInt 8) } []

/-- A container that structurally matches the CTA shape: exactly two
children, one text and one rectangle. -/
def ctaNode : Node := Node.mk
  { baseData with
    type := NType.FRAME,
    id := "cta-1".data,
    width := Rq.ofInt 120,
    height := Rq.ofInt 40 }
  [ctaTextChild, ctaShapeChild]

/-- A degenerate shape node: its width is half a pixel. -/
def degNode : Node := Node.mk
  { baseData with
    type := NType.RECTANGLE,
    name := "deg".data,
    width := rqHalf,
    height := Rq.ofInt 40,
    fills := FillsVal.arr [Paint.solid ⟨Rq.ofInt 1, Rq.ofInt 0, Rq.ofInt 0⟩ none none] } []

/-- A visible vector node for the export scenarios. -/
def vecNode (nm : List Char) (y0 : Int) : Node := Node.mk
  { baseData with
    type := NType.VECTOR,
    name := nm,
    y := Rq.ofInt y0,
    width := Rq.ofInt 50,
    height := Rq.ofInt 50 } []

/-- A download-mode context whose exporter succeeds on every node. -/
def dctxOk : DL.Ctx where
  parentBg := fun _ => white
  exportFn := fun _ => Except.ok [7, 8, 9]
  parentIsPage := fun _ => false

/-- A download-mode context whose exporter fails exactly on the node named
`bad`. -/
def dctxBad : DL.Ctx where
  parentBg := fun _ => white
  exportFn := fun n => if n.name = "bad".data then Except.error () else Except.ok [7, 8, 9]
  parentIsPage := fun _ => false

/-- A stale pass state, used to show that `parse` resets it. -/
def stJunk : DlState := ⟨[⟨"junk.png".data, [1]⟩], 9⟩

def stZero : DlState := ⟨[], 0⟩

/- ### Helper lemmas -/

set_option maxRecDepth 100000

theorem find_visible_solid (fills : List Paint) (c : RgbColor) (op : Option Rq) (v : Option Bool)
    (h : fills.find? (fun f => f.visibleOk) = some (Paint.solid c op v)) :
    fills.find? (fun f => f.isSolidT && f.visibleOk) = some (Paint.solid c op v) := by
  induction fills with
  | nil => simp at h
  | cons f fs ih =>
    rcases hv : f.visibleOk with _ | _
    · simp only [List.find?_cons, hv, Bool.and_false] at h ⊢
      exact ih h
    · simp only [List.find?_cons, hv] at h
      injection h with h
      subst h
      simp [Paint.isSolidT, hv]

theorem replaceAllC_append (c : Char) (rep a b : List Char) :
    replaceAllC c rep (a ++ b) = replaceAllC c rep a ++ replaceAllC c rep b := by
  simp [replaceAllC]

/- ### Claim theorems -/

/-- C1, counterexample: for the first-visible solid fill `(1,0,0)` at
opacity `0.5` composited over background `(0,0,1)`, the Color Resolver does
not produce the hex string `#7f007f` claimed by the spec. -/
theorem C1_counterexample :
    (CT.getEffectiveBackgroundColorForFills [redHalfFill] blueBg).hex ≠ some "#7f007f".data := by
  decide

/-- C1, amended: for fill color `(1,0,0)` at opacity `0.5` over background
`(0,0,1)` the Color Resolver produces resolved RGB `(0.5, 0, 0.5)`, and the
per-channel rule `Math.round(c*255)` rounds the half-intensity channels
`127.5` up to `128`, so the hex string is `#800080` (2-digit lower-case
hex), not `#7f007f`. -/
theorem C1_amended :
    (blendColors ⟨Rq.ofInt 1, Rq.ofInt 0, Rq.ofInt 0, rqHalf⟩ blueBg).r.beq rqHalf = true ∧
    (blendColors ⟨Rq.ofInt 1, Rq.ofInt 0, Rq.ofInt 0, rqHalf⟩ blueBg).g.beq (Rq.ofInt 0) = true ∧
    (blendColors ⟨Rq.ofInt 1, Rq.ofInt 0, Rq.ofInt 0, rqHalf⟩ blueBg).b.beq rqHalf = true ∧
    jsRound (rqHalf.mul (Rq.ofInt 255)) = 128 ∧
    figmaColorToHex ⟨rqHalf, Rq.ofInt 0, rqHalf⟩ = "#800080".data ∧
    (CT.getEffectiveBackgroundColorForFills [redHalfFill] blueBg).hex = some "#800080".data ∧
    ((CT.getEffectiveBackgroundColorForFills [redHalfFill] blueBg).rgb.r.beq rqHalf = true ∧
     (CT.getEffectiveBackgroundColorForFills [redHalfFill] blueBg).rgb.g.beq (Rq.ofInt 0) = true ∧
     (CT.getEffectiveBackgroundColorForFills [redHalfFill] blueBg).rgb.b.beq rqHalf = true) := by
  decide

/-- C2: for every fill list whose first visible fill is a solid with opacity
at least `0.99`, and for every ancestor-resolved background, the Color
Resolver returns exactly the fill's own color (and its hex encoding), with
no compositing against the background: the result does not mention the
background at all. -/
theorem C2_opaque_no_compositing (fills : List Paint) (bg : RgbColor) (color : RgbColor)
    (opacity : Option Rq) (vis : Option Bool)
    (hfirst : fills.find? (fun f => f.visibleOk) = some (Paint.solid color opacity vis))
    (hop : Rq.ble ⟨99, 100, by decide⟩ (opacity.getD (Rq.ofInt 1)) = true) :
    CT.getEffectiveBackgroundColorForFills fills bg = ⟨some (figmaColorToHex color), color⟩ := by
  unfold CT.getEffectiveBackgroundColorForFills
  rw [find_visible_solid fills color opacity vis hfirst]
  simp only [hop, if_true]

/-- C2, witness: a concrete fill list (an invisible image fill followed by a
visible solid at opacity `0.995`) resolves to its own color over an
arbitrary-looking background. -/
theorem C2_opaque_no_compositing_witness :
    fillsNearOpaque.find? (fun f => f.visibleOk) =
      some (Paint.solid ⟨Rq.ofInt 1, Rq.ofInt 0, Rq.ofInt 0⟩ (some ⟨995, 1000, by decide⟩) none) ∧
    Rq.ble ⟨99, 100, by decide⟩ ((some (⟨995, 1000, by decide⟩ : Rq)).getD (Rq.ofInt 1)) = true ∧
    CT.getEffectiveBackgroundColorForFills fillsNearOpaque blueBg =
      ⟨some (figmaColorToHex ⟨Rq.ofInt 1, Rq.ofInt 0, Rq.ofInt 0⟩),
       ⟨Rq.ofInt 1, Rq.ofInt 0, Rq.ofInt 0⟩⟩ :=
  ⟨by decide, by decide,
   C2_opaque_no_compositing fillsNearOpaque blueBg ⟨Rq.ofInt 1, Rq.ofInt 0, Rq.ofInt 0⟩
     (some ⟨995, 1000, by decide⟩) none (by decide) (by decide)⟩

/-- C10: a shape node or an image-like node whose width or height is below
one pixel renders as the empty fragment on the shape path and on both image
paths, and in the download-mode revision it neither appends an asset nor
advances the image counter (the pass state is returned unchanged). -/
theorem C10_degenerate_empty :
    (∀ (ctx : CT.Ctx) (node : Node) (parentWidth : Rq) (parentBgColor : RgbColor),
      (Rq.blt node.width (Rq.ofInt 1) = true ∨ Rq.blt node.height (Rq.ofInt 1) = true) →
      CT.renderShape ctx node parentWidth parentBgColor = []) ∧
    (∀ (node : Node) (parentWidth : Rq),
      (Rq.blt node.width (Rq.ofInt 1) = true ∨ Rq.blt node.height (Rq.ofInt 1) = true) →
      CT.renderImagePlaceholder node parentWidth = []) ∧
    (∀ (ctx : DL.Ctx) (node : Node) (parentWidth : Rq) (mode : IEMode) (st : DlState),
      (Rq.blt node.width (Rq.ofInt 1) = true ∨ Rq.blt node.height (Rq.ofInt 1) = true) →
      DL.renderImage ctx node parentWidth mode st = ([], st)) := by
  refine ⟨fun ctx node pw bg h => ?_, fun node pw h => ?_, fun ctx node pw mode st h => ?_⟩
  · unfold CT.renderShape
    rw [if_pos]
    simpa using h
  · unfold CT.renderImagePlaceholder
    rw [if_pos]
    simpa using h
  · unfold DL.renderImage
    rw [if_pos]
    simpa using h

/-- C10, witness: a concrete rectangle of width half a pixel renders as the
empty fragment on all three paths, and the download-mode pass state is
untouched. -/
theorem C10_degenerate_empty_witness :
    (Rq.blt degNode.width (Rq.ofInt 1) = true ∨ Rq.blt degNode.height (Rq.ofInt 1) = true) ∧
    CT.renderShape ctxPlain degNode (Rq.ofInt 400) white = [] ∧
    CT.renderImagePlaceholder degNode (Rq.ofInt 400) = [] ∧
    DL.renderImage dctxOk degNode (Rq.ofInt 400) IEMode.download stJunk = ([], stJunk) :=
  ⟨Or.inl (by decide),
   C10_degenerate_empty.1 ctxPlain degNode (Rq.ofInt 400) white (Or.inl (by decide)),
   C10_degenerate_empty.2.1 degNode (Rq.ofInt 400) (Or.inl (by decide)),
   C10_degenerate_empty.2.2 dctxOk degNode (Rq.ofInt 400) IEMode.download stJunk
     (Or.inl (by decide))⟩

theorem replaceAllC_cons (c : Char) (rep : List Char) (x : Char) (s : List Char) :
    replaceAllC c rep (x :: s) = (if x = c then rep else [x]) ++ replaceAllC c rep s := by
  simp [replaceAllC]

/-- C9, counterexample: the CTA render path emits the source text characters
without any escaping; a confirmed CTA whose label contains `<` renders the
raw `<` and produces no `&lt;` entity, so the claim does not hold on every
render path. -/
theorem C9_counterexample :
    isSubstr "a<b".data (CT.renderCta ctaNode white) = true ∧
    isSubstr "&lt;".data (CT.renderCta ctaNode white) = false ∧
    CT.renderNode ctxCta ctaNode (Rq.ofInt 400) white = CT.renderCta ctaNode white := by
  refine ⟨by decide, by decide, ?_⟩
  simp only [CT.renderNode]
  decide

/-- C9, amended: the text-run renderer escapes every occurrence of `&`, `<`
and `>` and maps every newline to a line break — the sequential replace
chain is exactly the per-character entity map — but this holds on the
text-run paths (`renderTextContent` and the single-run `renderText` cell,
both of which apply `sanitizeChars`), not on the CTA path, which
interpolates the label unescaped. -/
theorem C9_amended :
    (∀ cs : List Char, CT.sanitizeChars cs = cs.flatMap escapeChar) ∧
    isSubstr "x&lt;y&gt;&amp;<br />z".data
      (CT.renderTextContent (textNodeAt "x<y>&\nz".data (Rq.ofInt 0) (Rq.ofInt 20)) white) = true := by
  constructor
  · intro cs
    induction cs with
    | nil => rfl
    | cons c cs ih =>
      unfold CT.sanitizeChars
      rw [replaceAllC_cons, replaceAllC_append, replaceAllC_append, replaceAllC_append,
        List.flatMap_cons]
      have ih2 : replaceAllC '\n' "<br />".data
          (replaceAllC '>' "&gt;".data
            (replaceAllC '<' "&lt;".data
              (replaceAllC '&' "&amp;".data cs))) = cs.flatMap escapeChar := ih
      rw [ih2]
      congr 1
      by_cases h1 : c = '&'
      · subst h1; decide
      by_cases h2 : c = '<'
      · subst h2; decide
      by_cases h3 : c = '>'
      · subst h3; decide
      by_cases h4 : c = '\n'
      · subst h4; decide
      simp [escapeChar, h1, h2, h3, h4, replaceAllC]
  · decide

theorem cta_shape (n : Node) (h : isPotentialCta n = true) :
    n.children.length = 2 ∧ n.children.any (fun c => c.type = NType.TEXT) = true ∧
    n.children.any (fun c => c.type = NType.RECTANGLE ∨ c.type = NType.ELLIPSE) = true ∧
    (n.type = NType.FRAME ∨ n.type = NType.GROUP) := by
  unfold isPotentialCta at h
  split at h
  · exact absurd h (by simp)
  · split at h
    · exact absurd h (by simp)
    · rename_i h1 h2
      simp only [Bool.and_eq_true] at h
      refine ⟨not_not.mp h2, h.1, h.2, ?_⟩
      by_cases hf : n.type = NType.FRAME
      · exact Or.inl hf
      · by_cases hg : n.type = NType.GROUP
        · exact Or.inr hg
        · exact absurd ⟨hf, hg⟩ h1

theorem isVectorialAll_false (cs : List Node) (c : Node) (hm : c ∈ cs)
    (ht : c.type = NType.TEXT) : CT.isVectorialAll cs = false := by
  induction cs with
  | nil => simp at hm
  | cons a rest ih =>
    rcases List.mem_cons.mp hm with h1 | h2
    · subst h1
      unfold CT.isVectorialAll
      simp [ht]
    · unfold CT.isVectorialAll
      rw [ih h2]
      simp

theorem list_len2 {α : Type} (l : List α) (h : l.length = 2) : ∃ a b, l = [a, b] := by
  match l with
  | [a, b] => exact ⟨a, b, rfl⟩
  | [] => simp at h
  | [a] => simp at h
  | a :: b :: c :: t => simp [List.length_cons] at h

theorem iconGroup_false_of_text (n : Node) (c : Node) (hm : c ∈ n.children)
    (ht : c.type = NType.TEXT) : CT.isIconGroup n = false := by
  unfold CT.isIconGroup
  split
  · rfl
  · rename_i hne
    cases n with
    | mk d cs =>
      simp only [Node.children] at hm hne
      unfold CT.isVectorial
      split
      · simp_all
      · exact isVectorialAll_false cs c hm ht

theorem bullet_false_of_cta (n : Node) (h : isPotentialCta n = true) :
    isBulletPoint n = false := by
  obtain ⟨hlen, _, hshape, _⟩ := cta_shape n h
  obtain ⟨a, b, hc⟩ := list_len2 n.children hlen
  rw [hc] at hshape
  unfold isBulletPoint
  rw [hc]
  split
  · rfl
  · split
    · rfl
    · simp only []
      split
      · rfl
      · rename_i hT
        push_neg at hT
        exfalso
        simp only [List.any_cons, List.any_nil, Bool.or_false, Bool.or_eq_true,
          decide_eq_true_eq] at hshape
        rcases hshape with hs | hs
        · rcases hs with hs | hs
          · rw [hT.1] at hs; simp at hs
          · rw [hT.1] at hs; simp at hs
        · rcases hs with hs | hs
          · rw [hT.2] at hs; simp at hs
          · rw [hT.2] at hs; simp at hs

/-- C6: a visible container that structurally matches the CTA shape but
whose id is not in the confirmed-id set renders through the plain-container
path (`renderContainer`), never through the CTA anchor-button path. -/
theorem C6_cta_gating (ctx : CT.Ctx) (node : Node) (parentWidth : Rq) (parentBgColor : RgbColor)
    (hvis : node.visible = true)
    (hcta : isPotentialCta node = true)
    (hid : ctx.confirmedCtaIds.contains node.id = false) :
    CT.renderNode ctx node parentWidth parentBgColor =
      CT.renderContainer ctx node parentWidth parentBgColor false := by
  obtain ⟨hlen, htext, hshape, htype⟩ := cta_shape node hcta
  have hex : ∃ c ∈ node.children, c.type = NType.TEXT := by
    simpa using htext
  obtain ⟨c, hm, ht⟩ := hex
  have hicon : CT.isIconGroup node = false := iconGroup_false_of_text node c hm (by simpa using ht)
  have hbul : isBulletPoint node = false := bullet_false_of_cta node hcta
  have hnm : ¬ node.id ∈ ctx.confirmedCtaIds := by simpa using hid
  rw [CT.renderNode]
  rcases htype with h | h <;>
    simp [hvis, h, hicon, hbul, hnm]

/-- C6, witness: a concrete two-child text-plus-rectangle frame whose id is
not confirmed renders through the plain-container path. -/
theorem C6_cta_gating_witness :
    ctaNode.visible = true ∧ isPotentialCta ctaNode = true ∧
    ctxPlain.confirmedCtaIds.contains ctaNode.id = false ∧
    CT.renderNode ctxPlain ctaNode (Rq.ofInt 400) white =
      CT.renderContainer ctxPlain ctaNode (Rq.ofInt 400) white false :=
  ⟨by decide, by decide, by decide,
   C6_cta_gating ctxPlain ctaNode (Rq.ofInt 400) white (by decide) (by decide) (by decide)⟩

/-- C7: in download mode the n-th successful export is assigned
`image-<n>.png` and appended to the pass asset list (the counter advancing
by one), the result of `parse` on a non-empty selection is independent of
the incoming pass state (assets and counter are reset at entry), and three
image-like nodes in document order yield assets named `image-1.png`,
`image-2.png`, `image-3.png` even from a stale state. -/
theorem C7_asset_numbering :
    (∀ (ctx : DL.Ctx) (nodes : List Node) (mode : IEMode) (s1 s2 : DlState),
      nodes.isEmpty = false → DL.parse ctx nodes mode s1 = DL.parse ctx nodes mode s2) ∧
    (∀ (ctx : DL.Ctx) (node : Node) (parentWidth : Rq) (st : DlState) (bytes : List Nat),
      ctx.exportFn node = Except.ok bytes →
      Rq.ble (Rq.ofInt 1) node.width = true → Rq.ble (Rq.ofInt 1) node.height = true →
      DL.renderImage ctx node parentWidth IEMode.download st =
        (DL.imgTag ("images/".data ++ ("image-".data ++ natToStr (st.imageCounter + 1) ++ ".png".data))
          (Rq.minQ (Rq.ofInt (jsRound node.width)) parentWidth)
          (if node.name = [] then "Image".data else node.name),
         ⟨st.imageAssets ++
            [⟨"image-".data ++ natToStr (st.imageCounter + 1) ++ ".png".data, bytes⟩],
          st.imageCounter + 1⟩)) ∧
    ((DL.parse dctxOk [vecNode "a".data 0, vecNode "b".data 50, vecNode "c".data 100]
        IEMode.download stJunk).2.imageAssets.map ImageAsset.name =
      ["image-1.png".data, "image-2.png".data, "image-3.png".data]) := by
  refine ⟨fun ctx nodes mode s1 s2 h => ?_, fun ctx node pw st bytes hexp hw hh => ?_, ?_⟩
  · unfold DL.parse
    rw [if_neg (by simp [h]), if_neg (by simp [h])]
  · have hw2 : Rq.blt node.width (Rq.ofInt 1) = false := by
      simp only [Rq.blt, Rq.ble, decide_eq_true_eq] at hw ⊢
      simp only [decide_eq_false_iff_not]
      omega
    have hh2 : Rq.blt node.height (Rq.ofInt 1) = false := by
      simp only [Rq.blt, Rq.ble, decide_eq_true_eq] at hh ⊢
      simp only [decide_eq_false_iff_not]
      omega
    unfold DL.renderImage
    rw [if_neg (by simp [hw2, hh2])]
    simp only [hexp]
    rfl
  · simp only [DL.parse, DL.parseLoop, DL.renderNode, DL.renderImage, DL.isImageLikeNode]
    decide

/-- C7, witness: the theorem applied to a concrete vector node, a stale
state and the always-succeeding exporter. -/
theorem C7_asset_numbering_witness :
    ([vecNode "a".data 0, vecNode "b".data 50].isEmpty = false) ∧
    (DL.parse dctxOk [vecNode "a".data 0, vecNode "b".data 50] IEMode.download stJunk =
      DL.parse dctxOk [vecNode "a".data 0, vecNode "b".data 50] IEMode.download stZero) ∧
    (dctxOk.exportFn (vecNode "a".data 0) = Except.ok [7, 8, 9]) ∧
    (Rq.ble (Rq.ofInt 1) (vecNode "a".data 0).width = true) ∧
    (Rq.ble (Rq.ofInt 1) (vecNode "a".data 0).height = true) ∧
    ((DL.renderImage dctxOk (vecNode "a".data 0) (Rq.ofInt 50) IEMode.download stJunk).2 =
      ⟨stJunk.imageAssets ++
        [⟨"image-".data ++ natToStr (stJunk.imageCounter + 1) ++ ".png".data, [7, 8, 9]⟩],
       stJunk.imageCounter + 1⟩) :=
  ⟨by decide,
   C7_asset_numbering.1 dctxOk [vecNode "a".data 0, vecNode "b".data 50] IEMode.download
     stJunk stZero (by decide),
   rfl, by decide, by decide,
   congrArg Prod.snd
     (C7_asset_numbering.2.1 dctxOk (vecNode "a".data 0) (Rq.ofInt 50) stJunk [7, 8, 9]
       rfl (by decide) (by decide))⟩

/-- C8: a failed rasterised export in base64 or download mode returns a
visible inline error fragment naming the node with the pass state untouched
(no exception is modelled, the function is total), and in a concrete
three-node download pass whose middle export fails, the error fragment
appears in the output while both siblings still render and receive the
deterministic asset names `image-1.png`, `image-2.png`. -/
theorem C8_export_failure :
    (∀ (ctx : DL.Ctx) (node : Node) (parentWidth : Rq) (mode : IEMode) (st : DlState),
      (mode = IEMode.base64 ∨ mode = IEMode.download) →
      ctx.exportFn node = Except.error () →
      Rq.ble (Rq.ofInt 1) node.width = true → Rq.ble (Rq.ofInt 1) node.height = true →
      DL.renderImage ctx node parentWidth mode st =
        ("<p style=\"color:red;\">Error exporting image: ".data ++
          (if node.name = [] then "Image".data else node.name) ++ "</p>".data, st)) ∧
    (isSubstr "Error exporting image: bad".data
      (DL.parse dctxBad [vecNode "a".data 0, vecNode "bad".data 50, vecNode "c".data 100]
        IEMode.download stZero).1 = true) ∧
    ((DL.parse dctxBad [vecNode "a".data 0, vecNode "bad".data 50, vecNode "c".data 100]
        IEMode.download stZero).2.imageAssets.map ImageAsset.name =
      ["image-1.png".data, "image-2.png".data]) ∧
    (isSubstr "images/image-1.png".data
      (DL.parse dctxBad [vecNode "a".data 0, vecNode "bad".data 50, vecNode "c".data 100]
        IEMode.download stZero).1 = true) ∧
    (isSubstr "images/image-2.png".data
      (DL.parse dctxBad [vecNode "a".data 0, vecNode "bad".data 50, vecNode "c".data 100]
        IEMode.download stZero).1 = true) := by
  refine ⟨fun ctx node pw mode st hmode hexp hw hh => ?_, ?_, ?_, ?_, ?_⟩
  · have hw2 : Rq.blt node.width (Rq.ofInt 1) = false := by
      simp only [Rq.blt, Rq.ble, decide_eq_true_eq] at hw ⊢
      simp only [decide_eq_false_iff_not]
      omega
    have hh2 : Rq.blt node.height (Rq.ofInt 1) = false := by
      simp only [Rq.blt, Rq.ble, decide_eq_true_eq] at hh ⊢
      simp only [decide_eq_false_iff_not]
      omega
    have hnp : ¬ mode = IEMode.placeholder := by
      rcases hmode with h | h <;> subst h <;> decide
    unfold DL.renderImage
    rw [if_neg (by simp [hw2, hh2]), if_neg hnp]
    simp only [hexp]
  · simp only [DL.parse, DL.parseLoop, DL.renderNode, DL.renderImage, DL.isImageLikeNode]
    decide
  · simp only [DL.parse, DL.parseLoop, DL.renderNode, DL.renderImage, DL.isImageLikeNode]
    decide
  · simp only [DL.parse, DL.parseLoop, DL.renderNode, DL.renderImage, DL.isImageLikeNode]
    decide
  · simp only [DL.parse, DL.parseLoop, DL.renderNode, DL.renderImage, DL.isImageLikeNode]
    decide

/-- C8, witness: the failure theorem applied to the concrete failing node in
download mode. -/
theorem C8_export_failure_witness :
    (IEMode.download = IEMode.base64 ∨ IEMode.download = IEMode.download) ∧
    (dctxBad.exportFn (vecNode "bad".data 50) = Except.error ()) ∧
    (Rq.ble (Rq.ofInt 1) (vecNode "bad".data 50).width = true) ∧
    (Rq.ble (Rq.ofInt 1) (vecNode "bad".data 50).height = true) ∧
    (DL.renderImage dctxBad (vecNode "bad".data 50) (Rq.ofInt 50) IEMode.download stJunk =
      ("<p style=\"color:red;\">Error exporting image: ".data ++
        (if (vecNode "bad".data 50).name = [] then "Image".data
         else (vecNode "bad".data 50).name) ++ "</p>".data, stJunk)) :=
  ⟨Or.inr rfl, rfl, by decide, by decide,
   C8_export_failure.1 dctxBad (vecNode "bad".data 50) (Rq.ofInt 50) IEMode.download stJunk
     (Or.inr rfl) rfl (by decide) (by decide)⟩
/- ### Split/join infrastructure shared by the style-accumulator proofs -/

theorem splitOnC_ne_nil (c : Char) (s : List Char) : splitOnC c s ≠ [] := by
  induction s with
  | nil => simp [splitOnC]
  | cons a t ih =>
    rw [splitOnC]
    rcases h : splitOnC c t with _ | ⟨p, ps⟩
    · exact absurd h ih
    · dsimp only
      split <;> simp

theorem sep_not_mem_of_mem_splitOnC (c : Char) (s p : List Char)
    (hp : p ∈ splitOnC c s) : c ∉ p := by
  induction s generalizing p with
  | nil =>
    simp [splitOnC] at hp
    subst hp
    simp
  | cons a t ih =>
    rw [splitOnC] at hp
    rcases h : splitOnC c t with _ | ⟨q, qs⟩
    · exact absurd h (splitOnC_ne_nil c t)
    · rw [h] at hp
      dsimp only at hp
      have hmem : ∀ x, x ∈ q :: qs → x ∈ splitOnC c t := fun x hx => by rw [h]; exact hx
      by_cases hac : a = c
      · rw [if_pos hac] at hp
        rcases List.mem_cons.mp hp with hp | hp
        · subst hp; simp
        · exact ih p (hmem p hp)
      · rw [if_neg hac] at hp
        rcases List.mem_cons.mp hp with hp | hp
        · subst hp
          intro hc
          rcases List.mem_cons.mp hc with hc | hc
          · exact hac hc.symm
          · exact ih q (hmem q (List.mem_cons_self q qs)) hc
        · exact ih p (hmem p (List.mem_cons.mpr (Or.inr hp)))

theorem joinC_cons_head (c a : Char) (q : List Char) (qs : List (List Char)) :
    joinC c ((a :: q) :: qs) = a :: joinC c (q :: qs) := by
  cases qs <;> simp [joinC]

theorem joinC_splitOnC (c : Char) (s : List Char) : joinC c (splitOnC c s) = s := by
  induction s with
  | nil => rfl
  | cons a t ih =>
    rw [splitOnC]
    rcases h : splitOnC c t with _ | ⟨q, qs⟩
    · exact absurd h (splitOnC_ne_nil c t)
    · rw [h] at ih
      dsimp only
      by_cases hac : a = c
      · subst hac
        rw [if_pos rfl, joinC, ih]
        rfl
      · rw [if_neg hac, joinC_cons_head, ih]

theorem splitOnC_append_cons (c : Char) (x y : List Char) (hx : c ∉ x) :
    splitOnC c (x ++ c :: y) = x :: splitOnC c y := by
  induction x with
  | nil =>
    simp only [List.nil_append]
    rw [splitOnC]
    rcases h : splitOnC c y with _ | ⟨q, qs⟩
    · exact absurd h (splitOnC_ne_nil c y)
    · dsimp only
      rw [if_pos rfl]
  | cons a x ih =>
    have hax : ¬ a = c := fun hh => hx (by simp [hh])
    have hcx : c ∉ x := fun hh => hx (List.mem_cons.mpr (Or.inr hh))
    simp only [List.cons_append]
    rw [splitOnC, ih hcx]
    dsimp only
    rw [if_neg hax]

theorem splitOnC_eq_single (c : Char) (s : List Char) (hs : c ∉ s) :
    splitOnC c s = [s] := by
  induction s with
  | nil => rfl
  | cons a t ih =>
    have hat : ¬ a = c := fun hh => hs (by simp [hh])
    have hct : c ∉ t := fun hh => hs (List.mem_cons.mpr (Or.inr hh))
    rw [splitOnC, ih hct]
    dsimp only
    rw [if_neg hat]

theorem splitOnC_joinC (c : Char) (ps : List (List Char)) (hne : ps ≠ [])
    (hfree : ∀ p ∈ ps, c ∉ p) : splitOnC c (joinC c ps) = ps := by
  induction ps with
  | nil => exact absurd rfl hne
  | cons p qs ih =>
    cases qs with
    | nil => rw [joinC]; exact splitOnC_eq_single c p (hfree p (List.mem_cons_self p []))
    | cons q rs =>
      rw [joinC, splitOnC_append_cons c p _ (hfree p (List.mem_cons_self _ _)),
        ih (by simp) (fun x hx => hfree x (List.mem_cons.mpr (Or.inr hx)))]

theorem mem_dropWhile_of_neg (p : Char → Bool) (l : List Char) (a : Char)
    (ha : a ∈ l) (hp : p a = false) : a ∈ l.dropWhile p := by
  induction l with
  | nil => exact absurd ha (List.not_mem_nil a)
  | cons b t ih =>
    by_cases hb : p b = true
    · have ht : a ∈ t := by
        rcases List.mem_cons.mp ha with h | h
        · subst h; rw [hp] at hb; exact absurd hb (by simp)
        · exact h
      simpa [List.dropWhile, hb] using ih ht
    · simpa [List.dropWhile, hb] using ha

theorem mem_trim (s : List Char) (a : Char) (ha : a ∈ s) (hw : isWSChar a = false) :
    a ∈ trim s := by
  have h1 : a ∈ trimLeft s := mem_dropWhile_of_neg _ _ _ ha hw
  unfold trim trimRight
  rw [List.mem_reverse]
  exact mem_dropWhile_of_neg _ _ _ (List.mem_reverse.mpr h1) hw

theorem trim_ne_nil_of_mem (s : List Char) (a : Char) (ha : a ∈ s)
    (hw : isWSChar a = false) : trim s ≠ [] :=
  fun h => (List.not_mem_nil a) (h ▸ mem_trim s a ha hw)

theorem head_splitOnC_free (c : Char) (s : List Char) :
    c ∉ (splitOnC c s).headD [] := by
  rcases h : splitOnC c s with _ | ⟨p, ps⟩
  · simp
  · have hmem : p ∈ splitOnC c s := by rw [h]; exact List.mem_cons_self _ _
    exact sep_not_mem_of_mem_splitOnC c s p hmem

theorem isEmpty_false_of_ne_nil (s : List Char) (h : s ≠ []) : s.isEmpty = false := by
  rcases s with _ | ⟨a, t⟩
  · exact absurd rfl h
  · rfl
theorem beq_br_false (hd : List Char) (hfree : '-' ∉ hd) :
    (hd == "border-radius".data) = false := by
  apply beq_eq_false_iff_ne.mpr
  intro hEq
  subst hEq
  exact hfree (by decide)

theorem contains_bridge (hd : List Char) (hfree : '-' ∉ hd) :
    (["margin".data, "padding".data, "border".data, "border-radius".data].contains hd)
      = (["margin".data, "padding".data, "border".data].contains hd) := by
  simp [List.contains, List.elem, beq_br_false hd hfree]

theorem ct_keep_iff (k v : List Char) (hk : (':' : Char) ∉ k) (hv : (':' : Char) ∉ v) :
    (CT.keepRuleCT (k ++ ':' :: v) = false ↔ ZeroPrunedDecl k v) := by
  have hcolon : (':' : Char) ∈ k ++ ':' :: v :=
    List.mem_append.mpr (Or.inr (List.mem_cons_self _ _))
  have htr : trim (k ++ ':' :: v) ≠ [] := trim_ne_nil_of_mem _ ':' hcolon (by decide)
  have hE : (trim (k ++ ':' :: v)).isEmpty = false := isEmpty_false_of_ne_nil _ htr
  have hsplit : splitOnC ':' (k ++ ':' :: v) = [k, v] := by
    rw [splitOnC_append_cons ':' k _ hk, splitOnC_eq_single ':' v hv]
  have hbridge := contains_bridge ((splitOnC '-' (trim k)).headD [])
    (head_splitOnC_free '-' (trim k))
  have hfree2 : ('-' : Char) ∉ (splitOnC '-' (trim k)).head?.getD [] := by
    simpa using head_splitOnC_free '-' (trim k)
  simp [CT.keepRuleCT, hsplit, hE, hbridge, ZeroPrunedDecl]
  intro hz
  constructor
  · intro h4
    by_contra hno
    push_neg at hno
    have hD := h4 hno.1 hno.2.1 hno.2.2
    rw [hD] at hfree2
    exact hfree2 (by decide)
  · intro h3 hA hB hC
    rcases h3 with h | h | h
    · exact absurd h hA
    · exact absurd h hB
    · exact absurd h hC
theorem kept_rule_mem (s rule : List Char) (hmem : rule ∈ splitOnC ';' s)
    (hkeep : CT.keepRuleCT rule = true) :
    rule ∈ splitOnC ';' (CT.cleanZeroValueStyles s) := by
  by_cases hs : s = []
  · subst hs
    simp [splitOnC] at hmem
    subst hmem
    exact absurd hkeep (by decide)
  · rw [CT.cleanZeroValueStyles, if_neg hs]
    have hflt : rule ∈ (splitOnC ';' s).filter CT.keepRuleCT :=
      List.mem_filter.mpr ⟨hmem, hkeep⟩
    rw [splitOnC_joinC ';' _ (List.ne_nil_of_mem hflt)
      (fun p hp => sep_not_mem_of_mem_splitOnC ';' s p (List.mem_filter.mp hp).1)]
    exact hflt

theorem dl_border_radius_dropped (v : List Char) (hv : (':' : Char) ∉ v)
    (hvt : trim v ≠ []) :
    DL.keepRuleDL ("border-radius".data ++ ':' :: v) = false := by
  have hb : ('b' : Char) ∈ "border-radius".data ++ ':' :: v :=
    List.mem_append.mpr (Or.inl (by decide))
  have htr : trim ("border-radius".data ++ ':' :: v) ≠ [] :=
    trim_ne_nil_of_mem _ 'b' hb (by decide)
  have hE : (trim ("border-radius".data ++ ':' :: v)).isEmpty = false :=
    isEmpty_false_of_ne_nil _ htr
  have hsplit : splitOnC ':' ("border-radius".data ++ ':' :: v)
      = ["border-radius".data, v] := by
    rw [splitOnC_append_cons ':' _ _ (by decide), splitOnC_eq_single ':' v hv]
  have hkt : trim "border-radius".data = "border-radius".data := rfl
  have hsub : isSubstr "border-radius".data "border-radius".data = true := by decide
  simp only [DL.keepRuleDL, hsplit, List.map, hkt, hE]
  simp [hvt, hsub]

/-- C4, counterexample: the download-mode revision drops the declaration
`border-radius:8px` even though its value is not a zero length (its filter
tests `key.includes("border-radius")` outside the zero-value conjunction),
so the claim that no declaration with a non-zero value is ever dropped fails
there; the current revision keeps the same string unchanged. -/
theorem C4_counterexample :
    DL.cleanZeroValueStyles "border-radius:8px;color:red".data = "color:red".data ∧
    CT.cleanZeroValueStyles "border-radius:8px;color:red".data
      = "border-radius:8px;color:red".data := by
  decide

/-- C4, amended: in the current revision the zero-value pruning is exact —
`padding-left:0px;color:red` prunes to `color:red`, `border:0` prunes to
nothing, a single-colon declaration is dropped exactly when its property's
first hyphen component is `margin`, `padding` or `border` and its value is a
zero length, and every kept declaration survives verbatim; the download-mode
revision additionally drops every declaration whose property contains
`border-radius`, whatever its value. -/
theorem C4_amended :
    CT.cleanZeroValueStyles "padding-left:0px;color:red".data = "color:red".data ∧
    CT.cleanZeroValueStyles "border:0".data = [] ∧
    (∀ k v : List Char, ':' ∉ k → ':' ∉ v →
      (CT.keepRuleCT (k ++ ':' :: v) = false ↔ ZeroPrunedDecl k v)) ∧
    (∀ s rule : List Char, rule ∈ splitOnC ';' s → CT.keepRuleCT rule = true →
      rule ∈ splitOnC ';' (CT.cleanZeroValueStyles s)) ∧
    (∀ v : List Char, ':' ∉ v → trim v ≠ [] →
      DL.keepRuleDL ("border-radius".data ++ ':' :: v) = false) :=
  ⟨by decide, by decide, ct_keep_iff, kept_rule_mem, dl_border_radius_dropped⟩

/-- C4, witness: the amended pruning characterisation evaluated on concrete
declarations. -/
theorem C4_amended_witness :
    (CT.keepRuleCT ("margin".data ++ ':' :: "0px".data) = false ↔
      ZeroPrunedDecl "margin".data "0px".data) ∧
    "color:red".data ∈
      splitOnC ';' (CT.cleanZeroValueStyles "padding-left:0px;color:red".data) ∧
    DL.keepRuleDL ("border-radius".data ++ ':' :: "8px".data) = false :=
  ⟨C4_amended.2.2.1 "margin".data "0px".data (by decide) (by decide),
   C4_amended.2.2.2.1 "padding-left:0px;color:red".data "color:red".data
     (by decide) (by decide),
   C4_amended.2.2.2.2 "8px".data (by decide) (by decide)⟩
/-- The vertical stack of the two-text gap scenario, for every vertical
position of the second child: the first child's row, then a filler row
exactly when the gap rounded to the nearest pixel exceeds two, sized to the
rounded gap, then the second child's row. -/
theorem stackPair_render (y2 : Rq) :
    CT.renderStackedChildren ctxPlain (stackParent y2) (Rq.ofInt 400) white =
      "<table width=\"100%\" border=\"0\" cellpadding=\"0\" cellspacing=\"0\" role=\"presentation\">".data ++
      CT.stackRowCT 0 0 (CT.renderText ctxPlain stackTextA white) ++
      (if 2 < jsRound (y2.sub (Rq.ofInt 30)) then CT.fillerRowCT (jsRound (y2.sub (Rq.ofInt 30))) else []) ++
      CT.stackRowCT 0 0 (CT.renderText ctxPlain (stackTextB y2) white) ++
      "</table>".data := by
  have hch : CT.stackedChildrenOf (stackParent y2) = [stackTextA, stackTextB y2] := rfl
  have hpt : (stackParent y2).paddingTop = some (Rq.ofInt 0) := rfl
  have hpl : (stackParent y2).paddingLeft = some (Rq.ofInt 0) := rfl
  have hpr : (stackParent y2).paddingRight = some (Rq.ofInt 0) := rfl
  have hyb : (stackTextB y2).y = y2 := rfl
  have hbot : stackTextA.y.add stackTextA.height = Rq.ofInt 30 := rfl
  have hj : jsRound (Rq.ofInt 0) = 0 := rfl
  have hgA : jsRound (stackTextA.y.sub (Rq.ofInt 0)) = 0 := rfl
  have hA : CT.renderNode ctxPlain stackTextA (((Rq.ofInt 400).sub (Rq.ofInt 0)).sub (Rq.ofInt 0)) white
      = CT.renderText ctxPlain stackTextA white := by
    simp only [CT.renderNode]
    rfl
  have hB : CT.renderNode ctxPlain (stackTextB y2) (((Rq.ofInt 400).sub (Rq.ofInt 0)).sub (Rq.ofInt 0)) white
      = CT.renderText ctxPlain (stackTextB y2) white := by
    simp only [CT.renderNode]
    rfl
  have hAne : (CT.renderText ctxPlain stackTextA white).isEmpty = false := rfl
  have hBne : (CT.renderText ctxPlain (stackTextB y2) white).isEmpty = false := rfl
  by_cases hg : 2 < jsRound (y2.sub (Rq.ofInt 30))
  · simp only [CT.renderStackedChildren, hch, CT.stackLoop, hpt, hpl, hpr, hyb, hbot,
      Option.getD_some, hj, hgA, hA, hB, hAne, hBne, hg]
    simp
  · simp only [CT.renderStackedChildren, hch, CT.stackLoop, hpt, hpl, hpr, hyb, hbot,
      Option.getD_some, hj, hgA, hA, hB, hAne, hBne, hg]
    simp

/-- C5, counterexample: with the second stacked child at vertical position
`32.4` and the previous child's bottom at `30`, the true vertical gap `2.4`
exceeds two pixels, yet the rendered stack contains no filler row (`colspan`
occurs only in filler rows): the source rounds the gap to the nearest pixel
before comparing it with the tolerance, so a gap of `2.4` rounds to `2` and
is treated as rounding noise. -/
theorem C5_counterexample :
    Rq.blt (Rq.ofInt 2) ((⟨162, 5, by decide⟩ : Rq).sub (stackTextA.y.add stackTextA.height)) = true ∧
    isSubstr "colspan".data
      (CT.renderStackedChildren ctxPlain (stackParent ⟨162, 5, by decide⟩) (Rq.ofInt 400) white) = false := by
  constructor
  · decide
  · rw [stackPair_render ⟨162, 5, by decide⟩]
    decide

/-- C5, amended: in the two-text vertical stack, a filler row is emitted for
a consecutive pair exactly when the vertical gap between the previous
child's bottom and the current child's top, rounded to the nearest pixel,
exceeds `2`, and the filler row is sized to the rounded gap; in particular a
gap of exactly `2` produces no filler row and a gap of `3` produces a filler
row of height `3`. -/
theorem C5_amended :
    (∀ y2 : Rq,
      CT.renderStackedChildren ctxPlain (stackParent y2) (Rq.ofInt 400) white =
        "<table width=\"100%\" border=\"0\" cellpadding=\"0\" cellspacing=\"0\" role=\"presentation\">".data ++
        CT.stackRowCT 0 0 (CT.renderText ctxPlain stackTextA white) ++
        (if 2 < jsRound (y2.sub (Rq.ofInt 30)) then CT.fillerRowCT (jsRound (y2.sub (Rq.ofInt 30))) else []) ++
        CT.stackRowCT 0 0 (CT.renderText ctxPlain (stackTextB y2) white) ++
        "</table>".data) ∧
    isSubstr "colspan".data
      (CT.renderStackedChildren ctxPlain (stackParent (Rq.ofInt 32)) (Rq.ofInt 400) white) = false ∧
    isSubstr (CT.fillerRowCT 3)
      (CT.renderStackedChildren ctxPlain (stackParent (Rq.ofInt 33)) (Rq.ofInt 400) white) = true := by
  refine ⟨fun y2 => stackPair_render y2, ?_, ?_⟩
  · rw [stackPair_render (Rq.ofInt 32)]
    decide
  · rw [stackPair_render (Rq.ofInt 33)]
    decide
/- ### Trim and dropWhile infrastructure for the idempotence proof -/

theorem dropWhile_head_false (p : Char → Bool) (l : List Char) (a : Char) (t : List Char)
    (h : l.dropWhile p = a :: t) : p a = false := by
  induction l with
  | nil => simp [List.dropWhile] at h
  | cons b bs ih =>
    rw [List.dropWhile_cons] at h
    by_cases hb : p b = true
    · exact ih (by simpa [hb] using h)
    · rw [if_neg (by simp [hb])] at h
      cases h
      simpa using hb

theorem dropWhile_dropWhile (p : Char → Bool) (l : List Char) :
    (l.dropWhile p).dropWhile p = l.dropWhile p := by
  rcases h : l.dropWhile p with _ | ⟨a, t⟩
  · rfl
  · rw [List.dropWhile_cons, if_neg (by simp [dropWhile_head_false p l a t h])]

theorem dropWhile_append_all (p : Char → Bool) (l₁ l₂ : List Char)
    (h : ∀ a ∈ l₁, p a = true) : (l₁ ++ l₂).dropWhile p = l₂.dropWhile p := by
  induction l₁ with
  | nil => rfl
  | cons a t ih =>
    rw [List.cons_append, List.dropWhile_cons, if_pos (h a (List.mem_cons_self a t))]
    exact ih (fun x hx => h x (List.mem_cons.mpr (Or.inr hx)))

theorem mem_of_mem_trim (s : List Char) (a : Char) (h : a ∈ trim s) : a ∈ s := by
  unfold trim trimRight trimLeft at h
  rw [List.mem_reverse] at h
  have h1 := (List.dropWhile_suffix isWSChar).mem h
  rw [List.mem_reverse] at h1
  exact (List.dropWhile_suffix isWSChar).mem h1

theorem trimRight_prefix (v : List Char) : trimRight v <+: v := by
  refine ⟨(v.reverse.takeWhile isWSChar).reverse, ?_⟩
  unfold trimRight
  rw [← List.reverse_append, List.takeWhile_append_dropWhile, List.reverse_reverse]

theorem trimLeft_cons_ws (a : Char) (x : List Char) (h : isWSChar a = true) :
    trimLeft (a :: x) = trimLeft x := by
  unfold trimLeft
  rw [List.dropWhile_cons, if_pos h]

theorem trim_cons_ws (a : Char) (x : List Char) (h : isWSChar a = true) :
    trim (a :: x) = trim x := by
  unfold trim
  rw [trimLeft_cons_ws a x h]

theorem trimRight_trimRight (v : List Char) : trimRight (trimRight v) = trimRight v := by
  unfold trimRight
  rw [List.reverse_reverse, dropWhile_dropWhile]

theorem trim_trim (s : List Char) : trim (trim s) = trim s := by
  show trimRight (trimLeft (trimRight (trimLeft s))) = trimRight (trimLeft s)
  have h1 : trimLeft (trimRight (trimLeft s)) = trimRight (trimLeft s) := by
    rcases h : trimRight (trimLeft s) with _ | ⟨a, t⟩
    · rfl
    · obtain ⟨z, hz⟩ := trimRight_prefix (trimLeft s)
      rw [h] at hz
      have ha : isWSChar a = false :=
        dropWhile_head_false isWSChar s a (t ++ z) (by simpa using hz.symm)
      unfold trimLeft
      rw [List.dropWhile_cons, if_neg (by simp [ha])]
  rw [h1, trimRight_trimRight]

theorem trim_nil_of_all (z : List Char) (h : ∀ a ∈ z, isWSChar a = true) : trim z = [] := by
  have h1 : trimLeft z = [] := by
    unfold trimLeft
    rw [List.dropWhile_eq_nil_iff]
    exact h
  unfold trim
  rw [h1]
  rfl

theorem trimRight_append_ws (p z : List Char) (h : ∀ a ∈ z, isWSChar a = true) :
    trimRight (p ++ z) = trimRight p := by
  unfold trimRight
  rw [List.reverse_append, dropWhile_append_all isWSChar z.reverse p.reverse
    (fun a ha => h a (List.mem_reverse.mp ha))]

theorem trim_append_ws (p z : List Char) (h : ∀ a ∈ z, isWSChar a = true) :
    trim (p ++ z) = trim p := by
  unfold trim trimLeft
  rw [List.dropWhile_append]
  by_cases hp : (p.dropWhile isWSChar).isEmpty
  · rw [if_pos hp]
    have hz : z.dropWhile isWSChar = [] := List.dropWhile_eq_nil_iff.mpr h
    rw [hz]
    have hp2 : p.dropWhile isWSChar = [] := by
      rcases hh : p.dropWhile isWSChar with _ | _
      · rfl
      · rw [hh] at hp; simp at hp
    rw [hp2]
  · rw [if_neg hp]
    exact trimRight_append_ws _ z h

theorem trimRight_decomp (u : List Char) :
    ∃ z, u = trimRight u ++ z ∧ ∀ a ∈ z, isWSChar a = true := by
  refine ⟨(u.reverse.takeWhile isWSChar).reverse, ?_, ?_⟩
  · obtain ⟨z, hz⟩ := trimRight_prefix u
    conv_lhs => rw [← hz]
    congr 1
    have : trimRight u ++ (u.reverse.takeWhile isWSChar).reverse = u := by
      unfold trimRight
      rw [← List.reverse_append, List.takeWhile_append_dropWhile, List.reverse_reverse]
    have h2 := this.trans hz.symm
    exact (List.append_cancel_left h2).symm
  · intro a ha
    exact List.mem_takeWhile_imp (p := isWSChar) (List.mem_reverse.mp ha)
/- ### Join membership and the split/trim interaction -/

theorem mem_joinC_decomp (c : Char) (ps : List (List Char)) (a : Char)
    (h : a ∈ joinC c ps) : (∃ p ∈ ps, a ∈ p) ∨ a = c := by
  induction ps with
  | nil => simp [joinC] at h
  | cons p qs ih =>
    cases qs with
    | nil =>
      rw [joinC] at h
      exact Or.inl ⟨p, List.mem_cons_self p [], h⟩
    | cons q rs =>
      rw [joinC] at h
      rcases List.mem_append.mp h with h | h
      · exact Or.inl ⟨p, List.mem_cons_self _ _, h⟩
      · rcases List.mem_cons.mp h with h | h
        · exact Or.inr h
        · rcases ih h with ⟨x, hx, hax⟩ | h
          · exact Or.inl ⟨x, List.mem_cons.mpr (Or.inr hx), hax⟩
          · exact Or.inr h

theorem mem_joinC_of_mem (c : Char) (ps : List (List Char)) (p : List Char) (a : Char)
    (hp : p ∈ ps) (ha : a ∈ p) : a ∈ joinC c ps := by
  induction ps with
  | nil => exact absurd hp (List.not_mem_nil p)
  | cons x qs ih =>
    cases qs with
    | nil =>
      rw [joinC]
      rcases List.mem_cons.mp hp with h | h
      · exact h ▸ ha
      · exact absurd h (List.not_mem_nil p)
    | cons q rs =>
      rw [joinC]
      rcases List.mem_cons.mp hp with h | h
      · exact List.mem_append.mpr (Or.inl (h ▸ ha))
      · exact List.mem_append.mpr (Or.inr (List.mem_cons.mpr (Or.inr (ih h))))

theorem mem_joinCS_decomp (es : List (List Char)) (a : Char)
    (h : a ∈ joinCS es) : (∃ e ∈ es, a ∈ e) ∨ a = ',' ∨ a = ' ' := by
  induction es with
  | nil => simp [joinCS] at h
  | cons p qs ih =>
    cases qs with
    | nil =>
      rw [joinCS] at h
      exact Or.inl ⟨p, List.mem_cons_self p [], h⟩
    | cons q rs =>
      rw [joinCS] at h
      rcases List.mem_append.mp h with h | h
      · exact Or.inl ⟨p, List.mem_cons_self _ _, h⟩
      · rcases List.mem_cons.mp h with h | h
        · exact Or.inr (Or.inl h)
        · rcases List.mem_cons.mp h with h | h
          · exact Or.inr (Or.inr h)
          · rcases ih h with ⟨x, hx, hax⟩ | h
            · exact Or.inl ⟨x, List.mem_cons.mpr (Or.inr hx), hax⟩
            · exact Or.inr h

theorem mem_joinCS_of_mem (es : List (List Char)) (e : List Char) (a : Char)
    (he : e ∈ es) (ha : a ∈ e) : a ∈ joinCS es := by
  induction es with
  | nil => exact absurd he (List.not_mem_nil e)
  | cons x qs ih =>
    cases qs with
    | nil =>
      rw [joinCS]
      rcases List.mem_cons.mp he with h | h
      · exact h ▸ ha
      · exact absurd h (List.not_mem_nil e)
    | cons q rs =>
      rw [joinCS]
      rcases List.mem_cons.mp he with h | h
      · exact List.mem_append.mpr (Or.inl (h ▸ ha))
      · exact List.mem_append.mpr (Or.inr (List.mem_cons.mpr (Or.inr (List.mem_cons.mpr
          (Or.inr (ih h))))))

theorem splitOnC_mLast (c : Char) (x z : List Char) (hz : c ∉ z) :
    splitOnC c (x ++ z) = mLast (· ++ z) (splitOnC c x) := by
  induction x with
  | nil =>
    rw [List.nil_append, splitOnC_eq_single c z hz]
    rfl
  | cons a x' ih =>
    rcases h : splitOnC c x' with _ | ⟨p, ps⟩
    · exact absurd h (splitOnC_ne_nil c x')
    · rw [h] at ih
      rw [List.cons_append, splitOnC, ih, splitOnC, h]
      cases ps with
      | nil =>
        dsimp only [mLast]
        by_cases hac : a = c
        · rw [if_pos hac, if_pos hac]
          rfl
        · rw [if_neg hac, if_neg hac]
          rfl
      | cons q rs =>
        dsimp only [mLast]
        by_cases hac : a = c
        · rw [if_pos hac, if_pos hac]
          rfl
        · rw [if_neg hac, if_neg hac]
          rfl

theorem map_trim_mLast_ws (z : List Char) (hz : ∀ a ∈ z, isWSChar a = true)
    (l : List (List Char)) : (mLast (· ++ z) l).map trim = l.map trim := by
  induction l with
  | nil => rfl
  | cons p qs ih =>
    cases qs with
    | nil =>
      dsimp only [mLast, List.map]
      rw [trim_append_ws p z hz]
    | cons q rs =>
      dsimp only [mLast, List.map]
      rw [List.map] at ih
      rw [ih]

theorem map_trim_split_trimLeft (c : Char) (hc : isWSChar c = false) (u : List Char) :
    (splitOnC c (trimLeft u)).map trim = (splitOnC c u).map trim := by
  induction u with
  | nil => rfl
  | cons a u' ih =>
    by_cases ha : isWSChar a = true
    · have hac : ¬ a = c := fun h => by rw [h] at ha; rw [hc] at ha; exact absurd ha (by simp)
      rw [trimLeft_cons_ws a u' ha]
      rcases h : splitOnC c u' with _ | ⟨p, ps⟩
      · exact absurd h (splitOnC_ne_nil c u')
      · rw [splitOnC, h]
        dsimp only
        rw [if_neg hac, ih, h]
        dsimp only [List.map]
        rw [trim_cons_ws a p ha]
    · have ha2 : trimLeft (a :: u') = a :: u' := by
        unfold trimLeft
        rw [List.dropWhile_cons, if_neg (by simp [ha])]
      rw [ha2]

theorem map_trim_split_trimRight (c : Char) (hc : isWSChar c = false) (u : List Char) :
    (splitOnC c (trimRight u)).map trim = (splitOnC c u).map trim := by
  obtain ⟨z, hu, hz⟩ := trimRight_decomp u
  conv_rhs => rw [hu]
  rw [splitOnC_mLast c (trimRight u) z
    (fun hmem => by rw [hz c hmem] at hc; exact absurd hc (by simp))]
  rw [map_trim_mLast_ws z hz]

theorem map_trim_split_trim (c : Char) (hc : isWSChar c = false) (u : List Char) :
    (splitOnC c (trim u)).map trim = (splitOnC c u).map trim :=
  (map_trim_split_trimRight c hc (trimLeft u)).trans (map_trim_split_trimLeft c hc u)

theorem trim_headD_split_trim (c : Char) (hc : isWSChar c = false) (u : List Char) :
    trim ((splitOnC c (trim u)).headD []) = trim ((splitOnC c u).headD []) := by
  have h := map_trim_split_trim c hc u
  have h1 := congrArg (fun l => l.headD (trim [])) h
  simpa [List.headD_map] using h1
theorem mem_of_mem_splitOnC_piece (c : Char) (s p : List Char) (a : Char)
    (hp : p ∈ splitOnC c s) (ha : a ∈ p) : a ∈ s := by
  have h := mem_joinC_of_mem c (splitOnC c s) p a hp ha
  rwa [joinC_splitOnC] at h
/- ### Deduplication and the font-list round trip -/

theorem dedupSetAux_mem (seen l : List (List Char)) (x : List Char)
    (h : x ∈ dedupSetAux seen l) : x ∈ l ∧ x ∉ seen := by
  induction l generalizing seen with
  | nil => simp [dedupSetAux] at h
  | cons y ys ih =>
    rw [dedupSetAux] at h
    by_cases hy : y ∈ seen
    · rw [if_pos hy] at h
      obtain ⟨h1, h2⟩ := ih seen h
      exact ⟨List.mem_cons.mpr (Or.inr h1), h2⟩
    · rw [if_neg hy] at h
      rcases List.mem_cons.mp h with h | h
      · exact ⟨List.mem_cons.mpr (Or.inl h), h ▸ hy⟩
      · obtain ⟨h1, h2⟩ := ih (y :: seen) h
        exact ⟨List.mem_cons.mpr (Or.inr h1), fun hx => h2 (List.mem_cons.mpr (Or.inr hx))⟩

theorem dedupSetAux_mem_of (seen l : List (List Char)) (x : List Char)
    (hx : x ∈ l) (hs : x ∉ seen) : x ∈ dedupSetAux seen l := by
  induction l generalizing seen with
  | nil => exact absurd hx (List.not_mem_nil x)
  | cons y ys ih =>
    rw [dedupSetAux]
    by_cases hy : y ∈ seen
    · rw [if_pos hy]
      rcases List.mem_cons.mp hx with h | h
      · exact absurd (h ▸ hy) hs
      · exact ih seen h hs
    · rw [if_neg hy]
      rcases List.mem_cons.mp hx with h | h
      · exact List.mem_cons.mpr (Or.inl h)
      · by_cases hxy : x = y
        · exact List.mem_cons.mpr (Or.inl hxy)
        · refine List.mem_cons.mpr (Or.inr (ih (y :: seen) h ?_))
          intro hmem
          rcases List.mem_cons.mp hmem with hh | hh
          · exact hxy hh
          · exact hs hh

theorem dedupSetAux_nodup (seen l : List (List Char)) : (dedupSetAux seen l).Nodup := by
  induction l generalizing seen with
  | nil => simp [dedupSetAux]
  | cons y ys ih =>
    rw [dedupSetAux]
    by_cases hy : y ∈ seen
    · rw [if_pos hy]
      exact ih seen
    · rw [if_neg hy]
      refine List.nodup_cons.mpr ⟨?_, ih (y :: seen)⟩
      intro hmem
      exact (dedupSetAux_mem (y :: seen) ys y hmem).2 (List.mem_cons_self y seen)

theorem dedupSetAux_eq_self :
    ∀ (l : List (List Char)) (seen : List (List Char)), l.Nodup →
      (∀ x ∈ l, x ∉ seen) → dedupSetAux seen l = l := by
  intro l
  induction l with
  | nil => intro seen _ _; rfl
  | cons y ys ih =>
    intro seen hnd hsn
    rw [dedupSetAux, if_neg (hsn y (List.mem_cons_self y ys))]
    congr 1
    refine ih (y :: seen) (List.nodup_cons.mp hnd).2 ?_
    intro x hx hmem
    rcases List.mem_cons.mp hmem with hh | hh
    · exact (List.nodup_cons.mp hnd).1 (hh ▸ hx)
    · exact hsn x (List.mem_cons.mpr (Or.inr hx)) hh

theorem dedupSet_eq_self_of_nodup (l : List (List Char)) (h : l.Nodup) :
    dedupSet l = l :=
  dedupSetAux_eq_self l [] h (fun x _ => List.not_mem_nil x)

theorem mem_dedupSet (l : List (List Char)) (x : List Char) :
    x ∈ dedupSet l ↔ x ∈ l :=
  ⟨fun h => (dedupSetAux_mem [] l x h).1,
   fun h => dedupSetAux_mem_of [] l x h (List.not_mem_nil x)⟩

theorem dedupSet_ne_nil (l : List (List Char)) (h : l ≠ []) : dedupSet l ≠ [] := by
  rcases l with _ | ⟨x, xs⟩
  · exact absurd rfl h
  · intro hd
    have : x ∈ dedupSet (x :: xs) := (mem_dedupSet _ x).mpr (List.mem_cons_self x xs)
    rw [hd] at this
    exact List.not_mem_nil x this

theorem map_trim_split_joinCS (es : List (List Char)) (hne : es ≠ [])
    (hfree : ∀ e ∈ es, ',' ∉ e) :
    (splitOnC ',' (joinCS es)).map trim = es.map trim := by
  induction es with
  | nil => exact absurd rfl hne
  | cons e qs ih =>
    cases qs with
    | nil =>
      rw [joinCS, splitOnC_eq_single ',' e (hfree e (List.mem_cons_self e []))]
    | cons q rs =>
      rw [joinCS]
      rw [splitOnC_append_cons ',' e _ (hfree e (List.mem_cons_self _ _))]
      rcases h : splitOnC ',' (joinCS (q :: rs)) with _ | ⟨p, ps⟩
      · exact absurd h (splitOnC_ne_nil _ _)
      · have hsp : splitOnC ',' (' ' :: joinCS (q :: rs)) = (' ' :: p) :: ps := by
          rw [splitOnC, h]
          dsimp only
          rw [if_neg (by decide)]
        rw [hsp]
        dsimp only [List.map]
        rw [trim_cons_ws ' ' p (by decide)]
        have ih2 := ih (by simp) (fun x hx => hfree x (List.mem_cons.mpr (Or.inr hx)))
        rw [h] at ih2
        dsimp only [List.map] at ih2
        rw [List.cons.injEq] at ih2
        rw [ih2.1, ih2.2]

/-- The processed font list of a quote-free value: the deduplicated trimmed
pieces. -/
theorem processFonts_eq_of_qfree (x : List Char) (hq : qc ∉ x) :
    processFonts x = joinCS (dedupSet ((splitOnC ',' x).map trim)) := by
  unfold processFonts
  congr 2
  apply List.map_congr_left
  intro f hf
  apply List.filter_eq_self.mpr
  intro a ha
  have haf : a ∈ f := mem_of_mem_trim f a ha
  have hax : a ∈ x := mem_of_mem_splitOnC_piece ',' x f a hf haf
  simp only [Bool.not_eq_true']
  apply decide_eq_false
  intro hh
  exact hq (hh ▸ hax)

/-- A second font pass is the identity on the output of a first pass over a
quote-free value. -/
theorem processFonts_stable (x : List Char) (hq : qc ∉ x) :
    processFonts (trim (processFonts x)) = processFonts x := by
  rw [processFonts_eq_of_qfree x hq]
  set es := dedupSet ((splitOnC ',' x).map trim) with hes
  have hes_sub : ∀ e ∈ es, ∃ f, e = trim f := by
    intro e he
    have := (mem_dedupSet _ e).mp he
    obtain ⟨f, _, hf⟩ := List.mem_map.mp this
    exact ⟨f, hf.symm⟩
  have hes_trimmed : ∀ e ∈ es, trim e = e := by
    intro e he
    obtain ⟨f, hf⟩ := hes_sub e he
    rw [hf, trim_trim]
  have hes_cfree : ∀ e ∈ es, ',' ∉ e := by
    intro e he hc
    have := (mem_dedupSet _ e).mp he
    obtain ⟨f, hfm, hf⟩ := List.mem_map.mp this
    have h1 : (',' : Char) ∈ f := mem_of_mem_trim f ',' (hf ▸ hc)
    exact sep_not_mem_of_mem_splitOnC ',' x f hfm h1
  have hes_qfree : ∀ e ∈ es, qc ∉ e := by
    intro e he hcq
    have := (mem_dedupSet _ e).mp he
    obtain ⟨f, hfm, hf⟩ := List.mem_map.mp this
    have h1 : qc ∈ f := mem_of_mem_trim f qc (hf ▸ hcq)
    exact hq (mem_of_mem_splitOnC_piece ',' x f qc hfm h1)
  have hne : es ≠ [] := by
    apply dedupSet_ne_nil
    intro hmap
    have := splitOnC_ne_nil ',' x
    rcases hh : splitOnC ',' x with _ | _
    · exact this hh
    · rw [hh] at hmap; simp at hmap
  have hwq : qc ∉ joinCS es := by
    intro hmem
    rcases mem_joinCS_decomp es qc hmem with ⟨e, he, hae⟩ | h | h
    · exact hes_qfree e he hae
    · exact absurd h (by decide)
    · exact absurd h (by decide)
  rw [processFonts_eq_of_qfree _ (fun hmem => hwq (mem_of_mem_trim _ qc hmem))]
  rw [map_trim_split_trim ',' (by decide) (joinCS es)]
  rw [map_trim_split_joinCS es hne hes_cfree]
  have hid : es.map trim = es := by
    rw [List.map_congr_left hes_trimmed]
    exact es.map_id
  rw [hid, dedupSet_eq_self_of_nodup es (dedupSetAux_nodup [] _)]
/- ### Side facts about processed fonts, and the zero-filter transfer -/

theorem processFonts_mem_sub (x : List Char) (a : Char) (ha : a ∈ processFonts x) :
    a ∈ x ∨ a = ',' ∨ a = ' ' := by
  unfold processFonts at ha
  rcases mem_joinCS_decomp _ a ha with ⟨e, he, hae⟩ | h | h
  · have := (mem_dedupSet _ e).mp he
    obtain ⟨f, hfm, hf⟩ := List.mem_map.mp this
    have h1 : a ∈ trim f := List.mem_of_mem_filter (hf ▸ hae)
    exact Or.inl (mem_of_mem_splitOnC_piece ',' x f a hfm (mem_of_mem_trim f a h1))
  · exact Or.inr (Or.inl h)
  · exact Or.inr (Or.inr h)

theorem processFonts_trim_ne_nil (x : List Char) (hq : qc ∉ x)
    (hex : ∃ f ∈ splitOnC ',' x, trim f ≠ []) :
    trim (processFonts x) ≠ [] := by
  obtain ⟨f, hfm, hft⟩ := hex
  have hmem : trim f ∈ dedupSet ((splitOnC ',' x).map trim) :=
    (mem_dedupSet _ _).mpr (List.mem_map.mpr ⟨f, hfm, rfl⟩)
  have hnw : ∃ a ∈ trim f, isWSChar a = false := by
    by_contra hall
    push_neg at hall
    have : ∀ a ∈ trim f, isWSChar a = true := by
      intro a ha
      rcases hh : isWSChar a with _ | _
      · exact absurd hh (hall a ha)
      · rfl
    exact hft (by rw [← trim_trim f]; exact trim_nil_of_all _ this)
  obtain ⟨a, haf, haw⟩ := hnw
  have hain : a ∈ processFonts x := by
    rw [processFonts_eq_of_qfree x hq]
    exact mem_joinCS_of_mem _ (trim f) a hmem haf
  exact trim_ne_nil_of_mem _ a hain haw

theorem keepRuleCT_eq (r key₁ p₁ : List Char) (rest' : List (List Char))
    (hsp : splitOnC ':' r = key₁ :: p₁ :: rest')
    (htr : (trim r).isEmpty = false) :
    CT.keepRuleCT r =
      !((["margin".data, "padding".data, "border".data, "border-radius".data].contains
          ((splitOnC '-' (trim key₁)).headD [])) && CT.isZeroLengthCT (trim p₁)) := by
  simp only [CT.keepRuleCT, hsp, htr, Bool.false_eq_true, if_false,
    List.getD_cons_succ, List.getD_cons_zero, List.headD_cons]
  rw [if_neg (by simp only [List.length_cons]; omega)]
  split
  · next hcond => rw [hcond]; rfl
  · next hcond =>
    rcases hh : (_ && _) with _ | _
    · rfl
    · rw [hh] at hcond
      simp at hcond

theorem keepRuleCT_font (v : List Char) :
    CT.keepRuleCT ("font-family".data ++ ':' :: v) = true := by
  have hcolon : (':' : Char) ∈ "font-family".data ++ ':' :: v :=
    List.mem_append.mpr (Or.inr (List.mem_cons_self _ _))
  have htr : (trim ("font-family".data ++ ':' :: v)).isEmpty = false :=
    isEmpty_false_of_ne_nil _ (trim_ne_nil_of_mem _ ':' hcolon (by decide))
  rcases hsp2 : splitOnC ':' v with _ | ⟨q, qs⟩
  · exact absurd hsp2 (splitOnC_ne_nil ':' v)
  · have hsplit : splitOnC ':' ("font-family".data ++ ':' :: v)
        = "font-family".data :: q :: qs := by
      rw [splitOnC_append_cons ':' _ _ (by decide), hsp2]
    rw [keepRuleCT_eq _ _ q qs hsplit htr]
    have hc : (["margin".data, "padding".data, "border".data, "border-radius".data].contains
        ((splitOnC '-' (trim "font-family".data)).headD [])) = false := by decide
    rw [hc]
    rfl

theorem keep_transfer (r key₁ p₁ : List Char) (rest' : List (List Char))
    (hsp : splitOnC ':' r = key₁ :: p₁ :: rest')
    (htr : (trim r).isEmpty = false)
    (hkeep : CT.keepRuleCT r = true) :
    CT.keepRuleCT (trim key₁ ++ ':' :: trim (joinC ':' (p₁ :: rest'))) = true := by
  have hfree : ∀ p ∈ p₁ :: rest', ':' ∉ p := by
    intro p hp
    refine sep_not_mem_of_mem_splitOnC ':' r p ?_
    rw [hsp]
    exact List.mem_cons.mpr (Or.inr hp)
  have hkfree : (':' : Char) ∉ trim key₁ := by
    intro hmem
    refine sep_not_mem_of_mem_splitOnC ':' r key₁ ?_ (mem_of_mem_trim _ ':' hmem)
    rw [hsp]
    exact List.mem_cons_self _ _
  have hspR : splitOnC ':' (joinC ':' (p₁ :: rest')) = p₁ :: rest' :=
    splitOnC_joinC ':' _ (by simp) hfree
  have hcolon : (':' : Char) ∈ trim key₁ ++ ':' :: trim (joinC ':' (p₁ :: rest')) :=
    List.mem_append.mpr (Or.inr (List.mem_cons_self _ _))
  have htr2 : (trim (trim key₁ ++ ':' :: trim (joinC ':' (p₁ :: rest')))).isEmpty = false :=
    isEmpty_false_of_ne_nil _ (trim_ne_nil_of_mem _ ':' hcolon (by decide))
  rcases hsp2 : splitOnC ':' (trim (joinC ':' (p₁ :: rest'))) with _ | ⟨q, qs⟩
  · exact absurd hsp2 (splitOnC_ne_nil ':' _)
  · have hsplit2 : splitOnC ':' (trim key₁ ++ ':' :: trim (joinC ':' (p₁ :: rest')))
        = trim key₁ :: q :: qs := by
      rw [splitOnC_append_cons ':' _ _ hkfree, hsp2]
    rw [keepRuleCT_eq _ _ q qs hsplit2 htr2]
    rw [keepRuleCT_eq r key₁ p₁ rest' hsp htr] at hkeep
    have hq : trim q = trim p₁ := by
      have h := trim_headD_split_trim ':' (by decide) (joinC ':' (p₁ :: rest'))
      rw [hsp2, hspR] at h
      simpa using h
    rw [trim_trim, hq]
    exact hkeep
/- ### The accumulator map and the stability of entry rules -/

theorem kvRule_ne_nil (e : List Char × List Char) : kvRule e ≠ [] := by
  unfold kvRule
  rcases e with ⟨k, v⟩
  cases k <;> simp

theorem mapSet_eq_append (m : List (List Char × List Char)) (k v : List Char)
    (h : k ∉ m.map Prod.fst) : CT.mapSet m k v = m ++ [(k, v)] := by
  unfold CT.mapSet
  rw [if_neg ?hc]
  case hc =>
    intro hany
    rw [List.any_eq_true] at hany
    obtain ⟨e, hem, he⟩ := hany
    exact h (List.mem_map.mpr ⟨e, hem, of_decide_eq_true he⟩)

theorem mapSet_entriesOK (m : List (List Char × List Char)) (k v : List Char)
    (hOK : EntriesOK m) (h : EntryOK (k, v)) : EntriesOK (CT.mapSet m k v) := by
  obtain ⟨hall, hnd⟩ := hOK
  unfold CT.mapSet
  by_cases hany : m.any (fun e => e.1 = k) = true
  · rw [if_pos hany]
    constructor
    · intro e he
      obtain ⟨e0, he0, heq⟩ := List.mem_map.mp he
      by_cases h0 : e0.1 = k
      · rw [← heq, if_pos h0]; exact h
      · rw [← heq, if_neg h0]; exact hall e0 he0
    · have hkeys : (m.map (fun e => if e.1 = k then (k, v) else e)).map Prod.fst
          = m.map Prod.fst := by
        rw [List.map_map]
        apply List.map_congr_left
        intro e he
        by_cases h0 : e.1 = k
        · simp [h0]
        · simp [h0]
      rw [hkeys]; exact hnd
  · rw [if_neg hany]
    have hk : k ∉ m.map Prod.fst := by
      intro hmem
      obtain ⟨e, hem, he⟩ := List.mem_map.mp hmem
      exact hany (List.any_eq_true.mpr ⟨e, hem, decide_eq_true he⟩)
    constructor
    · intro e he
      rcases List.mem_append.mp he with h1 | h1
      · exact hall e h1
      · rcases List.mem_cons.mp h1 with h2 | h2
        · rw [h2]; exact h
        · exact absurd h2 (List.not_mem_nil e)
    · rw [List.map_append]
      refine List.Nodup.append hnd (List.nodup_singleton k) ?_
      intro a ha hb
      rcases List.mem_cons.mp hb with hh | hh
      · rw [show ((k, v) : List Char × List Char).1 = k from rfl] at hh
        exact hk (hh ▸ ha)
      · simp only [List.map] at hh
        exact absurd hh (List.not_mem_nil a)

theorem sanitizeStep_entry (m : List (List Char × List Char)) (k v : List Char)
    (hOK : EntryOK (k, v)) : CT.sanitizeStep m (kvRule (k, v)) = CT.mapSet m k v := by
  obtain ⟨hk_ne, hk_tr, hk_colon, _, hv_ne, hv_trne, _, _, hstable⟩ := hOK
  have hparts : splitOnC ':' (kvRule (k, v)) = k :: splitOnC ':' v :=
    splitOnC_append_cons ':' k v hk_colon
  simp only [CT.sanitizeStep, hparts, List.headD_cons, List.tail_cons, joinC_splitOnC]
  rw [hk_tr]
  rw [if_neg (not_or.mpr ⟨hk_ne, hv_trne⟩)]
  by_cases hf : k = "font-family".data
  · rw [if_pos hf]
    rw [if_pos hf] at hstable
    show CT.mapSet m k (processFonts (trim v)) = CT.mapSet m k v
    rw [hstable]
  · rw [if_neg hf]
    rw [if_neg hf] at hstable
    rw [hstable]
/- ### One accumulator step preserves the entry invariant -/

theorem sanitizeStep_INV (m : List (List Char × List Char)) (r : List Char)
    (hOK : EntriesOK m) (hr : RuleOK r) : EntriesOK (CT.sanitizeStep m r) := by
  obtain ⟨hsemi, hkeep, hkey, hfont, htr⟩ := hr
  rcases hsp : splitOnC ':' r with _ | ⟨key₁, ps⟩
  · exact absurd hsp (splitOnC_ne_nil ':' r)
  rcases ps with _ | ⟨p₁, rest'⟩
  · simp only [CT.sanitizeStep, hsp, List.headD_cons, List.tail_cons]
    rw [if_pos (Or.inr (show trim (joinC ':' []) = [] from rfl))]
    exact hOK
  · have hrk : ruleKey r = key₁ := by unfold ruleKey; rw [hsp]; rfl
    have hrv : ruleValue r = trim (joinC ':' (p₁ :: rest')) := by
      unfold ruleValue; rw [hsp]; rfl
    simp only [CT.sanitizeStep, hsp, List.headD_cons, List.tail_cons]
    by_cases hk0 : key₁ = []
    · rw [if_pos (Or.inl hk0)]; exact hOK
    by_cases hv0 : trim (joinC ':' (p₁ :: rest')) = []
    · rw [if_pos (Or.inr hv0)]; exact hOK
    rw [if_neg (not_or.mpr ⟨hk0, hv0⟩)]
    have hkey_mem : key₁ ∈ splitOnC ':' r := by rw [hsp]; exact List.mem_cons_self _ _
    have hk_colonfree : ':' ∉ trim key₁ := fun hm =>
      sep_not_mem_of_mem_splitOnC ':' r key₁ hkey_mem (mem_of_mem_trim _ ':' hm)
    have hk_semifree : ';' ∉ trim key₁ := fun hm =>
      hsemi (mem_of_mem_splitOnC_piece ':' r key₁ ';' hkey_mem (mem_of_mem_trim _ ';' hm))
    have hk_ne : trim key₁ ≠ [] := by
      unfold RuleKeyOK at hkey
      rw [hrk] at hkey
      exact hkey hk0
    have hk_tr : trim (trim key₁) = trim key₁ := trim_trim _
    have hv_sub : ∀ a ∈ trim (joinC ':' (p₁ :: rest')), a ∈ r ∨ a = ':' := by
      intro a ha
      have h1 := mem_of_mem_trim _ a ha
      rcases mem_joinC_decomp ':' _ a h1 with ⟨p, hp, hap⟩ | h2
      · refine Or.inl (mem_of_mem_splitOnC_piece ':' r p a ?_ hap)
        rw [hsp]
        exact List.mem_cons.mpr (Or.inr hp)
      · exact Or.inr h2
    have hv_semifree : ';' ∉ trim (joinC ':' (p₁ :: rest')) := by
      intro hm
      rcases hv_sub ';' hm with h | h
      · exact hsemi h
      · exact absurd h (by decide)
    by_cases hf : trim key₁ = "font-family".data
    · rw [if_pos hf]
      unfold RuleFontOK at hfont
      rw [hrk] at hfont
      obtain ⟨hqr, hex⟩ := hfont hf
      rw [hrv] at hex
      have hq : qc ∉ trim (joinC ':' (p₁ :: rest')) := by
        intro hm
        rcases hv_sub qc hm with h | h
        · exact hqr h
        · exact absurd h (by decide)
      apply mapSet_entriesOK m _ _ hOK
      show EntryOK (trim key₁, processFonts (trim (joinC ':' (p₁ :: rest'))))
      have hw_trne : trim (processFonts (trim (joinC ':' (p₁ :: rest')))) ≠ [] :=
        processFonts_trim_ne_nil _ hq hex
      refine ⟨hk_ne, hk_tr, hk_colonfree, hk_semifree, ?_, hw_trne, ?_, ?_, ?_⟩
      · intro hw
        apply hw_trne
        have hw2 : processFonts (trim (joinC ':' (p₁ :: rest'))) = [] := hw
        rw [hw2]
        rfl
      · intro hm
        rcases processFonts_mem_sub _ ';' hm with h | h | h
        · exact hv_semifree h
        · exact absurd h (by decide)
        · exact absurd h (by decide)
      · show CT.keepRuleCT (kvRule (trim key₁, _)) = true
        unfold kvRule
        rw [hf]
        exact keepRuleCT_font _
      · rw [if_pos hf]
        exact processFonts_stable _ hq
    · rw [if_neg hf]
      apply mapSet_entriesOK m _ _ hOK
      have hv_tr : trim (trim (joinC ':' (p₁ :: rest'))) = trim (joinC ':' (p₁ :: rest')) :=
        trim_trim _
      refine ⟨hk_ne, hk_tr, hk_colonfree, hk_semifree, hv0, ?_, hv_semifree, ?_, ?_⟩
      · rw [hv_tr]; exact hv0
      · show CT.keepRuleCT (kvRule (trim key₁, _)) = true
        unfold kvRule
        exact keep_transfer r key₁ p₁ rest' hsp htr hkeep
      · rw [if_neg hf]
        exact hv_tr
/- ### Folding the accumulator, and the accumulation fixed point -/

theorem foldl_sanitizeStep_INV :
    ∀ (rules : List (List Char)) (m : List (List Char × List Char)),
      EntriesOK m → (∀ r ∈ rules, RuleOK r) →
      EntriesOK (rules.foldl CT.sanitizeStep m) := by
  intro rules
  induction rules with
  | nil => intro m h _; exact h
  | cons r rs ih =>
    intro m hm hr
    rw [List.foldl_cons]
    exact ih _ (sanitizeStep_INV m r hm (hr r (List.mem_cons_self _ _)))
      (fun x hx => hr x (List.mem_cons.mpr (Or.inr hx)))

theorem foldl_sanitizeStep_append :
    ∀ (E : List (List Char × List Char)) (acc : List (List Char × List Char)),
      (∀ e ∈ E, EntryOK e) → (((acc ++ E).map Prod.fst).Nodup) →
      (E.map kvRule).foldl CT.sanitizeStep acc = acc ++ E := by
  intro E
  induction E with
  | nil => intro acc _ _; simp
  | cons e E' ih =>
    intro acc hOK hnd
    rw [List.map_cons, List.foldl_cons]
    have he : EntryOK (e.1, e.2) := hOK e (List.mem_cons_self _ _)
    have hnotin : e.1 ∉ acc.map Prod.fst := by
      intro hmem
      rw [List.map_append] at hnd
      have hdisj := (List.nodup_append.mp hnd).2.2
      have h1 : e.1 ∈ (e :: E').map Prod.fst := List.mem_map.mpr ⟨e, List.mem_cons_self _ _, rfl⟩
      exact hdisj hmem h1
    have hstep : CT.sanitizeStep acc (kvRule e) = acc ++ [e] := by
      rw [show kvRule e = kvRule (e.1, e.2) from rfl, sanitizeStep_entry acc e.1 e.2 he,
        mapSet_eq_append acc e.1 e.2 hnotin]
    rw [hstep]
    have hassoc : acc ++ e :: E' = (acc ++ [e]) ++ E' := by simp
    rw [ih (acc ++ [e]) (fun x hx => hOK x (List.mem_cons.mpr (Or.inr hx)))
      (by rw [← hassoc]; exact hnd)]
    simp

/-- Accumulation is the identity on the write-back of an invariant-satisfying
entry list with distinct keys. -/
theorem accumulate_fixed (E : List (List Char × List Char))
    (hOK : ∀ e ∈ E, EntryOK e) (hnd : (E.map Prod.fst).Nodup) :
    CT.accumulateStyles (joinC ';' (E.map kvRule)) = joinC ';' (E.map kvRule) := by
  rcases E with _ | ⟨e₀, E'⟩
  · rfl
  · have ht_ne : joinC ';' ((e₀ :: E').map kvRule) ≠ [] := by
      rw [List.map_cons]
      rcases hmm : E'.map kvRule with _ | ⟨q, qs⟩
      · rw [joinC]
        exact kvRule_ne_nil e₀
      · rw [joinC]
        rcases hkv : kvRule e₀ with _ | _
        · exact absurd hkv (kvRule_ne_nil e₀)
        · simp
    have hsemifree : ∀ p ∈ (e₀ :: E').map kvRule, ';' ∉ p := by
      intro p hp
      obtain ⟨e, he, heq⟩ := List.mem_map.mp hp
      obtain ⟨_, _, _, h4, _, _, h7, _, _⟩ := hOK e he
      rw [← heq]
      unfold kvRule
      intro hm
      rcases List.mem_append.mp hm with h | h
      · exact h4 h
      · rcases List.mem_cons.mp h with h | h
        · exact absurd h (by decide)
        · exact h7 h
    have hsplit : splitOnC ';' (joinC ';' ((e₀ :: E').map kvRule)) = (e₀ :: E').map kvRule :=
      splitOnC_joinC ';' _ (by simp) hsemifree
    have hkeepall : ∀ p ∈ (e₀ :: E').map kvRule, CT.keepRuleCT p = true := by
      intro p hp
      obtain ⟨e, he, heq⟩ := List.mem_map.mp hp
      rw [← heq]
      exact (hOK e he).2.2.2.2.2.2.2.1
    have hclean : CT.cleanZeroValueStyles (joinC ';' ((e₀ :: E').map kvRule))
        = joinC ';' ((e₀ :: E').map kvRule) := by
      unfold CT.cleanZeroValueStyles
      rw [if_neg ht_ne, hsplit, List.filter_eq_self.mpr hkeepall]
    have hblankall : ∀ p ∈ (e₀ :: E').map kvRule, (!(trim p).isEmpty) = true := by
      intro p hp
      obtain ⟨e, he, heq⟩ := List.mem_map.mp hp
      rw [← heq]
      have hc : (':' : Char) ∈ kvRule e := by
        unfold kvRule
        exact List.mem_append.mpr (Or.inr (List.mem_cons_self _ _))
      have h2 := trim_ne_nil_of_mem _ ':' hc (by decide)
      rw [isEmpty_false_of_ne_nil _ h2]
      rfl
    have hsan : CT.sanitizeStyles (joinC ';' ((e₀ :: E').map kvRule))
        = joinC ';' ((e₀ :: E').map kvRule) := by
      unfold CT.sanitizeStyles
      rw [if_neg ht_ne, hsplit, List.filter_eq_self.mpr hblankall]
      have hfold := foldl_sanitizeStep_append (e₀ :: E') [] hOK (by simpa using hnd)
      dsimp only
      rw [hfold]
      rfl
    show CT.accumulateStyles _ = _
    unfold CT.accumulateStyles
    rw [hclean, hsan]
/- ### The first accumulation pass produces an invariant entry list -/

theorem accumulate_entries (s : List Char) (hwf : StyleWF s) :
    ∃ E : List (List Char × List Char),
      CT.accumulateStyles s = joinC ';' (E.map kvRule) ∧
      (∀ e ∈ E, EntryOK e) ∧ (E.map Prod.fst).Nodup := by
  by_cases h0 : CT.cleanZeroValueStyles s = []
  · refine ⟨[], ?_, by simp, by simp⟩
    unfold CT.accumulateStyles
    rw [h0]
    rfl
  · have hs_ne : s ≠ [] := by
      intro hs
      apply h0
      rw [hs]
      rfl
    have hfil_ne : (splitOnC ';' s).filter CT.keepRuleCT ≠ [] := by
      intro hf
      apply h0
      unfold CT.cleanZeroValueStyles
      rw [if_neg hs_ne, hf]
      rfl
    have hcleq : CT.cleanZeroValueStyles s
        = joinC ';' ((splitOnC ';' s).filter CT.keepRuleCT) := by
      unfold CT.cleanZeroValueStyles
      rw [if_neg hs_ne]
    have hsplitu : splitOnC ';' (CT.cleanZeroValueStyles s)
        = (splitOnC ';' s).filter CT.keepRuleCT := by
      rw [hcleq]
      exact splitOnC_joinC ';' _ hfil_ne
        (fun p hp => sep_not_mem_of_mem_splitOnC ';' s p (List.mem_filter.mp hp).1)
    have hrule : ∀ r ∈ ((splitOnC ';' s).filter CT.keepRuleCT).filter
        (fun r => !(trim r).isEmpty), RuleOK r := by
      intro r hr
      have h1 := List.mem_filter.mp hr
      have h2 := List.mem_filter.mp h1.1
      have hmem : r ∈ splitOnC ';' s := h2.1
      refine ⟨sep_not_mem_of_mem_splitOnC ';' s r hmem, h2.2, (hwf r hmem).1,
        (hwf r hmem).2, ?_⟩
      rcases hh : (trim r).isEmpty with _ | _
      · rfl
      · have h3 := h1.2
        rw [hh] at h3
        simp at h3
    have hEOK := foldl_sanitizeStep_INV
      (((splitOnC ';' s).filter CT.keepRuleCT).filter (fun r => !(trim r).isEmpty)) []
      ⟨fun e he => absurd he (List.not_mem_nil e), by simp⟩ hrule
    refine ⟨_, ?_, hEOK.1, hEOK.2⟩
    show CT.accumulateStyles s = joinC ';' (List.map kvRule _)
    unfold CT.accumulateStyles CT.sanitizeStyles
    rw [if_neg h0, hsplitu]
    rfl

/-- C3, counterexample: the accumulation step is not idempotent on the style
string `  :red`: the first pass stores the whitespace-only property name as
an empty name, writing `:red`, and the second pass drops the now-empty name
entirely, writing the empty string. -/
theorem C3_counterexample :
    CT.accumulateStyles (CT.accumulateStyles "  :red".data) ≠
      CT.accumulateStyles "  :red".data := by
  decide

/-- C3, amended: the style accumulation step (zero-value pruning followed by
property deduplication with font-family normalisation) is idempotent on every
well-formed style string — one whose declarations have no whitespace-only
property name and whose font-family declarations are quote-free and name at
least one non-blank family. -/
theorem C3_amended (s : List Char) (hwf : StyleWF s) :
    CT.accumulateStyles (CT.accumulateStyles s) = CT.accumulateStyles s := by
  obtain ⟨E, hE, hOK, hnd⟩ := accumulate_entries s hwf
  rw [hE]
  exact accumulate_fixed E hOK hnd

/-- C3, witness: the amended idempotence evaluated on a concrete well-formed
style string exercising pruning, deduplication and the font path. -/
theorem C3_amended_witness :
    StyleWF "padding-left:0px;color:red;color:blue;font-family:Arial, Arial".data ∧
    CT.accumulateStyles (CT.accumulateStyles
        "padding-left:0px;color:red;color:blue;font-family:Arial, Arial".data) =
      CT.accumulateStyles
        "padding-left:0px;color:red;color:blue;font-family:Arial, Arial".data :=
  ⟨by unfold StyleWF RuleKeyOK RuleFontOK; decide,
   C3_amended _ (by unfold StyleWF RuleKeyOK RuleFontOK; decide)⟩
